import Mathlib

set_option linter.unusedVariables false

/-!
# Verification of the interval_analyzer GPS workout analysis pipeline

Shallow embedding of `src/app/public/analysis.py` (the derivation and
segmentation pipeline) and `src/lambda/lambda.py` (the signed-state helpers),
with theorems settling the frozen claims about the natural-language
specification.

Modelling conventions:
* Python/pandas floats are modelled as `Option ℚ`; `none` stands for
  `NaN`/`NaT` (a missing value).  Numpy comparisons against `NaN` are `False`,
  and pandas rolling sums skip `NaN` values, while `groupby(...).agg("sum")`
  of an all-`NaN` group is `0.0`; each helper below documents which behaviour
  it mirrors.
* The spherical `haversine_distance` uses floating-point trigonometry, which
  has no exact executable counterpart; it is kept abstract as a parameter
  `hav : ℚ → ℚ → ℚ → ℚ → ℚ` giving the raw great-circle distance for a pair
  of defined positions.  Every theorem about the segment deriver quantifies
  over `hav`, since the control flow under scrutiny never depends on the
  numeric value.
* Fallible Python code (uncaught exceptions such as pandas `KeyError` on an
  empty frame) is modelled with `Except String`.
-/

/-- A pandas/numpy float value: `none` is `NaN` (or `NaT` for timestamps). -/
abbrev OQ := Option ℚ

/-- Numpy semantics of `x > q`: a `NaN` operand compares `False`. -/
def ogt (x : OQ) (q : ℚ) : Bool :=
  match x with
  | none => false
  | some v => decide (q < v)

/-- Numpy semantics of `x < q`: a `NaN` operand compares `False`. -/
def olt (x : OQ) (q : ℚ) : Bool :=
  match x with
  | none => false
  | some v => decide (v < q)

/-- Subtraction with `NaN` propagation (`x - y`). -/
def osub (x y : OQ) : OQ :=
  match x, y with
  | some a, some b => some (a - b)
  | _, _ => none

/-- `Series.shift(1)`: a leading `NaN` is inserted and the last value drops. -/
def shift1 (xs : List OQ) : List OQ :=
  match xs with
  | [] => []
  | _ => none :: xs.dropLast

/-- Sum of a window as pandas `rolling(...).sum()` computes it: `NaN` entries
are skipped, and the result is `NaN` exactly when the window holds no
non-`NaN` value (`min_periods=1`). -/
def nansum (l : List OQ) : OQ :=
  let vals := l.filterMap id
  if vals.isEmpty then none else some vals.sum

/-- Mean as pandas computes it (`rolling(...).mean()` / `Series.mean()`):
`NaN` entries are skipped; an all-`NaN` input gives `NaN`. -/
def nanmean (l : List OQ) : OQ :=
  let vals := l.filterMap id
  if vals.isEmpty then none else some (vals.sum / vals.length)

/-- Max as pandas computes it (`Series.max()`, `skipna=True`). -/
def nanmax (l : List OQ) : OQ :=
  let vals := l.filterMap id
  match vals with
  | [] => none
  | v :: vs => some (vs.foldl max v)

/-- `groupby(...).agg("sum")`: pandas sums the non-`NaN` values of the group
with `min_count=0`, so an all-`NaN` group sums to `0.0` (a plain number). -/
def gsum (l : List OQ) : ℚ := (l.filterMap id).sum

/-- The trailing window of width `w` ending at index `i` (pandas
`rolling(window=w)`), shrinking near the start of the series. -/
def windowAt (w : ℕ) (xs : List OQ) (i : ℕ) : List OQ :=
  (xs.take (i + 1)).drop (i + 1 - w)

/-- `Series.rolling(window=w, min_periods=1).sum()`. -/
def rollSum (w : ℕ) (xs : List OQ) : List OQ :=
  (List.range xs.length).map fun i => nansum (windowAt w xs i)

/-- The centered window of width `w` at index `i` (pandas
`rolling(window=w, min_periods=1, center=True)`): it spans indices
`[i - (w-1)/2, i + w/2]`, clipped to the series. -/
def centerWindowAt (w : ℕ) (xs : List OQ) (i : ℕ) : List OQ :=
  (xs.take (i + w / 2 + 1)).drop (i + w / 2 + 1 - w)

/-- `Series.rolling(window=w, min_periods=1, center=True).mean()`. -/
def rollMeanCentered (w : ℕ) (xs : List OQ) : List OQ :=
  (List.range xs.length).map fun i => nanmean (centerWindowAt w xs i)

/-- Python `round` on a nonnegative rational: round half to even
(banker's rounding), as used by `round(...)` on floats. -/
def pyRound (q : ℚ) : ℤ :=
  let f : ℤ := ⌊q⌋
  let r : ℚ := q - f
  if r < 1/2 then f
  else if 1/2 < r then f + 1
  else if 2 ∣ f then f else f + 1

/-- Zero-padded decimal rendering of width two, as Python `f"{n:02d}"`. -/
def pad2 (n : ℕ) : String :=
  if n < 10 then "0" ++ toString n else toString n

-- --- Configuration constants of analysis.py ---

def MAX_SPEED_KMH_THRESHOLD : ℚ := 25
def SMOOTHING_WINDOW : ℕ := 5
def PACE_DIFFERENCE_THRESHOLD : ℚ := 1
def LMA_WINDOW : ℕ := 15
def MIN_INTERVAL_PACE_PER_KM : ℚ := 5.5
def MIN_INTERVAL_TIME_SECONDS : ℚ := 50
def MIN_DISTANCE_FOR_PACE_KM : ℚ := 0.02

/-- `format_time`: seconds to zero-padded `HH:MM:SS`; `NaN` or negative input
yields `"N/A"`.  (`max(0, int(t))` truncates; for `t ≥ 0` that is `⌊t⌋`.) -/
def format_time (total_time_seconds : OQ) : String :=
  match total_time_seconds with
  | none => "N/A"
  | some t =>
    if t < 0 then "N/A"
    else
      let s : ℕ := (⌊t⌋).toNat
      pad2 (s / 3600) ++ ":" ++ pad2 ((s % 3600) / 60) ++ ":" ++ pad2 (s % 60)

/-- `format_pace_min_sec`: pace over a distance as zero-padded `MM:SS` per km;
`"N/A"` when the distance is `NaN` or at most the `0.02` km floor, or when the
pace is `NaN`, nonpositive, or above `100` min/km.  A rounded seconds value of
`60` rolls over into the next minute. -/
def format_pace_min_sec (total_time_seconds : OQ) (total_distance_km : OQ) :
    String :=
  match total_distance_km with
  | none => "N/A"
  | some d =>
    if d ≤ MIN_DISTANCE_FOR_PACE_KM then "N/A"
    else
      match total_time_seconds with
      | none => "N/A"
      | some t =>
        let pace : ℚ := (t / 60) / d
        if pace ≤ 0 then "N/A"
        else if 100 < pace then "N/A"
        else
          let minutes : ℕ := (⌊pace⌋).toNat
          let seconds : ℤ := pyRound ((pace - (minutes : ℚ)) * 60)
          if 60 ≤ seconds then pad2 (minutes + 1) ++ ":" ++ pad2 0
          else pad2 minutes ++ ":" ++ pad2 seconds.toNat

-- --- Data model ---

/-- Interval label (`interval_type` column): `"Steady"`, `"Slow Interval"`,
or `"Recovery"`. -/
inductive Label where
  | steady
  | slowInterval
  | recovery
deriving DecidableEq, Repr, Inhabited

/-- One parsed track point as `extract_gpx_data` builds it, after the
`pd.to_numeric`/`pd.to_datetime` coercions (string parsing itself is the
excluded external collaborator): latitude/longitude in degrees, elevation,
the timestamp as seconds on the UTC axis, and the heart rate.  `none` is a
missing/uncoercible value. -/
structure RawFix where
  lat : OQ
  lon : OQ
  ele : OQ
  time : OQ
  hr : OQ
deriving DecidableEq, Repr, Inhabited

/-- A row of the dataframe returned by `extract_gpx_data`: the coerced fix
plus `time_since_start_seconds`. -/
structure FixRow where
  lat : OQ
  lon : OQ
  time : OQ
  hr : OQ
  tss : OQ
deriving DecidableEq, Repr, Inhabited

/-- `extract_gpx_data`, from the parsed track-point records onward.
`pd.DataFrame(row_list)` for an empty `row_list` is a frame with *no
columns*, so the subsequent `df["time"]` access raises `KeyError: 'time'`;
this uncaught exception is modelled as `Except.error`.  For a non-empty
list, `time_since_start_seconds` is `time - time[0]` when any timestamp is
present, else the scalar `0` broadcast to every row. -/
def extractRows (raws : List RawFix) : List FixRow :=
  match raws with
  | [] => []
  | r0 :: _ =>
    if raws.any (fun r => r.time.isSome) then
      raws.map fun r => ⟨r.lat, r.lon, r.time, r.hr, osub r.time r0.time⟩
    else
      raws.map fun r => ⟨r.lat, r.lon, r.time, r.hr, some 0⟩

def extract_gpx_data (raws : List RawFix) : Except String (List FixRow) :=
  if raws.isEmpty then Except.error "KeyError: time"
  else Except.ok (extractRows raws)

-- --- Segment deriver (calculate_pace_min_per_km) ---

/-- `df["time"].diff().dt.total_seconds()`: the first entry is `NaN`, entry
`i` is `time[i] - time[i-1]` (`NaN` when either timestamp is missing). -/
def segTimesCol (fixes : List FixRow) : List OQ :=
  (List.range fixes.length).map fun i =>
    if i = 0 then none
    else osub ((fixes.map FixRow.time).getD i none)
      ((fixes.map FixRow.time).getD (i - 1) none)

/-- `haversine_distance(lat.shift(1), lon.shift(1), lat, lon)`: numpy
trigonometry propagates `NaN`, so the raw distance is defined exactly when
both endpoint positions are; the value on defined inputs is given by the
abstract `hav`. -/
def rawDistCol (hav : ℚ → ℚ → ℚ → ℚ → ℚ) (fixes : List FixRow) : List OQ :=
  (List.range fixes.length).map fun i =>
    if i = 0 then none
    else
      match (fixes.map FixRow.lat).getD (i - 1) none,
        (fixes.map FixRow.lon).getD (i - 1) none,
        (fixes.map FixRow.lat).getD i none, (fixes.map FixRow.lon).getD i none with
      | some a, some b, some c, some d => some (hav a b c d)
      | _, _, _, _ => none

/-- `np.where(time_hours > 0, distance_km_raw / time_hours, 0.0)`: the
instantaneous speed in km/h, `0.0` when the elapsed time is `NaN` or not
positive (the `NaN > 0` comparison is `False`). -/
def speedAt (raw : OQ) (segTime : OQ) : OQ :=
  match segTime with
  | some dt => if 0 < dt / 3600 then raw.map (fun r => r / (dt / 3600)) else some 0
  | none => some 0

def speedCol (hav : ℚ → ℚ → ℚ → ℚ → ℚ) (fixes : List FixRow) : List OQ :=
  (List.range fixes.length).map fun i =>
    speedAt ((rawDistCol hav fixes).getD i none) ((segTimesCol fixes).getD i none)

/-- `instantaneous_speed_kmh > MAX_SPEED_KMH_THRESHOLD` (`NaN` is `False`). -/
def outlierCol (hav : ℚ → ℚ → ℚ → ℚ → ℚ) (fixes : List FixRow) : List Bool :=
  (speedCol hav fixes).map fun s => ogt s MAX_SPEED_KMH_THRESHOLD

/-- The two consecutive assignments to `df["segment_distance_km"]`
(analysis.py lines 173-184): first `np.where(is_outlier, 0.0,
distance_km_raw)`, then — overwriting that column — `np.where(any endpoint
coordinate is NaN, np.nan, distance_km_raw)`.  The second assignment reads
`distance_km_raw`, not the outlier-filtered column, so the first assignment
is dead. -/
def segDistAt (lat1 lon1 lat2 lon2 : OQ) (raw : OQ) (outlier : Bool) : OQ :=
  let afterOutlier : OQ := if outlier then some 0 else raw
  let final : OQ :=
    if lat2.isNone || lon2.isNone || lat1.isNone || lon1.isNone then none
    else raw
  final

def segDistCol (hav : ℚ → ℚ → ℚ → ℚ → ℚ) (fixes : List FixRow) : List OQ :=
  (List.range fixes.length).map fun i =>
    segDistAt
      (if i = 0 then none else (fixes.map FixRow.lat).getD (i - 1) none)
      (if i = 0 then none else (fixes.map FixRow.lon).getD (i - 1) none)
      ((fixes.map FixRow.lat).getD i none) ((fixes.map FixRow.lon).getD i none)
      ((rawDistCol hav fixes).getD i none)
      ((outlierCol hav fixes).getD i false)

/-- `np.where(rolling_distance_km > 0, time_minutes / rolling_distance_km,
np.nan)`: the short-window pace; `NaN` when the rolling distance is `NaN` or
not positive, or when the rolling time is `NaN`. -/
def paceAt (rollTime : OQ) (rollDist : OQ) : OQ :=
  match rollDist with
  | some d => if 0 < d then rollTime.map (fun t => (t / 60) / d) else none
  | none => none

def paceCol (hav : ℚ → ℚ → ℚ → ℚ → ℚ) (w : ℕ) (fixes : List FixRow) : List OQ :=
  (List.range fixes.length).map fun i =>
    paceAt ((rollSum w (segTimesCol fixes)).getD i none)
      ((rollSum w (segDistCol hav fixes)).getD i none)

/-- One row of the processed dataframe.  Columns that a later stage creates
(`pace_lma_min_per_km`, `pace_lma`, `pace_deviation`, `interval_id`,
`is_real_interval`) hold placeholder values until that stage assigns them. -/
structure ARow where
  time : OQ
  tss : OQ
  lat : OQ
  lon : OQ
  hr : OQ
  segTime : OQ
  segDist : OQ
  pace : OQ
  paceLmaDisp : OQ
  paceLma : OQ
  paceDev : OQ
  label : Label
  id : ℕ
  isReal : Bool
deriving DecidableEq, Repr, Inhabited

/-- `calculate_pace_min_per_km(df, window_size)`: adds
`segment_time_seconds`, `segment_distance_km` and `pace_min_per_km`. -/
def calculate_pace_min_per_km (hav : ℚ → ℚ → ℚ → ℚ → ℚ) (window_size : ℕ)
    (fixes : List FixRow) : List ARow :=
  (List.range fixes.length).map fun i =>
    { time := (fixes.map FixRow.time).getD i none
      tss := (fixes.map FixRow.tss).getD i none
      lat := (fixes.map FixRow.lat).getD i none
      lon := (fixes.map FixRow.lon).getD i none
      hr := (fixes.map FixRow.hr).getD i none
      segTime := (segTimesCol fixes).getD i none
      segDist := (segDistCol hav fixes).getD i none
      pace := (paceCol hav window_size fixes).getD i none
      paceLmaDisp := none
      paceLma := none
      paceDev := none
      label := Label.steady
      id := 0
      isReal := false }

/-- `df_processed["pace_lma_min_per_km"] = df_processed["pace_min_per_km"]
.rolling(window=lma_win, min_periods=1, center=True).mean()` (run_analysis,
display-only centered smoothing of the short-window pace). -/
def addPaceLmaDisp (lma_win : ℕ) (rows : List ARow) : List ARow :=
  List.zipWith (fun r m => { r with paceLmaDisp := m }) rows
    (rollMeanCentered lma_win (rows.map ARow.pace))

-- --- Interval identity: run-length encoded ids ---

/-- Helper for `rleIds`: `prev` is the previous label, `k` the id it was
assigned. -/
def rleIdsAux (prev : Label) (k : ℕ) : List Label → List ℕ
  | [] => []
  | l :: rest =>
    if l = prev then k :: rleIdsAux l k rest
    else (k + 1) :: rleIdsAux l (k + 1) rest

/-- `(df["interval_type"] != df["interval_type"].shift(1)).cumsum()`: the
first row compares unequal to the shifted `NaN`, so ids start at `1` and
increase by one at every label change. -/
def rleIds : List Label → List ℕ
  | [] => []
  | l :: rest => 1 :: rleIdsAux l 1 rest

/-- Rewrite the `interval_id` column by run-length encoding the current
`interval_type` column (the recomputation every stage ends with). -/
def reassign (rows : List ARow) : List ARow :=
  List.zipWith (fun r k => { r with id := k }) rows (rleIds (rows.map ARow.label))

/-- The number of adjacent label changes in a list (specification-side count
used to characterise `rleIds`). -/
def nadj : List Label → ℕ
  | [] => 0
  | [_] => 0
  | a :: b :: t => (if a = b then 0 else 1) + nadj (b :: t)

-- --- groupby helpers ---

/-- Insertion into a sorted list of keys. -/
def insertNat (n : ℕ) : List ℕ → List ℕ
  | [] => [n]
  | m :: t => if n ≤ m then n :: m :: t else m :: insertNat n t

/-- Insertion sort for key lists. -/
def sortNat : List ℕ → List ℕ
  | [] => []
  | n :: t => insertNat n (sortNat t)

/-- `df.groupby("interval_id")` group keys: the distinct ids in ascending
order (pandas sorts group keys). -/
def gkeys (rows : List ARow) : List ℕ :=
  (sortNat (rows.map ARow.id)).dedup

/-- The rows of one group (pandas collects every row carrying the key). -/
def grp (rows : List ARow) (k : ℕ) : List ARow :=
  rows.filter fun r => r.id = k

/-- `agg(interval_type=("interval_type", "first"))`: the group's first label
(groups are never empty, the default is unreachable). -/
def firstLabel (g : List ARow) : Label :=
  match g with
  | [] => Label.steady
  | r :: _ => r.label

-- --- Interval classifier (identify_intervals) ---

/-- `np.where(rolling_distance_lma > 0, rolling_time_lma /
rolling_distance_lma, np.nan)` where `rolling_time_lma` is already in
minutes. -/
def paceLmaAt (rollTimeMin : OQ) (rollDist : OQ) : OQ :=
  match rollDist with
  | some d => if 0 < d then rollTimeMin.map (fun t => t / d) else none
  | none => none

/-- `identify_intervals(df, lma_window, pace_difference_threshold)`: computes
the long-window baseline pace `pace_lma`, the deviation `pace_lma -
pace_min_per_km`, labels a row `"Slow Interval"` when the deviation is below
`-pace_difference_threshold` (a `NaN` deviation compares `False`, leaving
`"Steady"`), and run-length encodes `interval_id`. -/
def identify_intervals (lma_window : ℕ) (pace_difference_threshold : ℚ)
    (rows : List ARow) : List ARow :=
  let rollTimeMin :=
    (rollSum lma_window (rows.map ARow.segTime)).map (Option.map (fun t => t / 60))
  let rollDist := rollSum lma_window (rows.map ARow.segDist)
  let labeled := (List.range rows.length).map fun i =>
    let r := rows.getD i default
    let lma := paceLmaAt (rollTimeMin.getD i none) (rollDist.getD i none)
    let dev := osub lma r.pace
    { r with
      paceLma := lma
      paceDev := dev
      label :=
        if olt dev (-pace_difference_threshold) then Label.slowInterval
        else Label.steady }
  reassign labeled

-- --- Interval refiner ---

/-- `convert_slow_intervals_to_recovery`: every `"Slow Interval"` label
becomes `"Recovery"`; ids are re-run-length-encoded. -/
def convert_slow_intervals_to_recovery (rows : List ARow) : List ARow :=
  reassign (rows.map fun r =>
    if r.label = Label.slowInterval then { r with label := Label.recovery } else r)

/-- The per-interval demotion test of `convert_low_pace_steady_to_recovery`:
a `"Steady"` interval whose overall pace is slower than the threshold
(`NaN` pace compares `False`) or whose total distance is below the
`0.02` km floor. -/
def lowPaceSteady (rows : List ARow) (pace_threshold : ℚ) (k : ℕ) : Bool :=
  let g := grp rows k
  let dist := gsum (g.map ARow.segDist)
  let t := gsum (g.map ARow.segTime)
  let pace : OQ := if 0 < dist then some ((t / 60) / dist) else none
  decide (firstLabel g = Label.steady) &&
    (ogt pace pace_threshold || decide (dist < MIN_DISTANCE_FOR_PACE_KM))

/-- `convert_low_pace_steady_to_recovery(df, pace_threshold)`: aggregates the
current intervals, relabels the demoted ones `"Recovery"`, and
re-run-length-encodes the ids. -/
def convert_low_pace_steady_to_recovery (pace_threshold : ℚ)
    (rows : List ARow) : List ARow :=
  let demoted := (gkeys rows).filter (lowPaceSteady rows pace_threshold)
  reassign (rows.map fun r =>
    if r.id ∈ demoted then { r with label := Label.recovery } else r)

-- --- Iterative short-interval merge (merge_short_intervals) ---

/-- One line of the per-iteration `summary` frame: interval id, total time,
and type. -/
structure ISum where
  id : ℕ
  time : ℚ
  type : Label
deriving DecidableEq, Repr

/-- `df.groupby("interval_id").agg(total_time_seconds=..., interval_type=
("interval_type","first")).reset_index()`. -/
def summarizeGroups (rows : List ARow) : List ISum :=
  (gkeys rows).map fun k =>
    let g := grp rows k
    ⟨k, gsum (g.map ARow.segTime), firstLabel g⟩

/-- `summary[summary["interval_id"] == k]["interval_type"].iloc[0]`. -/
def lookupType (summary : List ISum) (k : ℕ) : Label :=
  match summary.find? (fun s => s.id = k) with
  | some s => s.type
  | none => Label.steady

/-- The merge-target choice for one short interval, read entirely off the
pre-pass `summary` snapshot: the previous interval if it exists and shares
the type; else the next interval if it exists and shares the type; else the
previous interval if one exists, otherwise the next. -/
def chooseTarget (summary : List ISum) (s : ISum) : Option ℕ :=
  let ids := summary.map ISum.id
  let idx := ids.indexOf s.id
  let prev : Option ℕ := if 0 < idx then ids.getD (idx - 1) 0 else none
  let next : Option ℕ := ids.get? (idx + 1)
  let t1 : Option ℕ :=
    match prev with
    | some p => if lookupType summary p = s.type then some p else none
    | none => none
  let t2 : Option ℕ :=
    match t1 with
    | some _ => t1
    | none =>
      match next with
      | some nx => if lookupType summary nx = s.type then some nx else none
      | none => none
  match t2 with
  | some t => some t
  | none => match prev with
    | some p => some p
    | none => next

/-- `df.loc[df["interval_id"] == current_id, "interval_type"] = target_type`
for one short interval; when no target exists (single interval) the frame is
untouched. -/
def applyMergeStepRows (summary : List ISum) (s : ISum) (rows : List ARow) :
    List ARow :=
  match chooseTarget summary s with
  | some t =>
    rows.map fun r =>
      if r.id = s.id then { r with label := lookupType summary t } else r
  | none => rows

/-- The `for _, row in short_intervals.iterrows()` loop: each short interval
is processed in increasing-id order against the pre-pass snapshot. -/
def applyMergeRows (summary : List ISum) (shorts : List ISum)
    (rows : List ARow) : List ARow :=
  shorts.foldl (fun acc s => applyMergeStepRows summary s acc) rows

/-- `merged_any`: set whenever a short interval found a target (the target's
choice depends only on the snapshot, so the flag is order-independent). -/
def applyMergeAny (summary : List ISum) (shorts : List ISum) : Bool :=
  shorts.any fun s => (chooseTarget summary s).isSome

/-- The short intervals of the pre-pass summary
(`summary[summary["total_time_seconds"] < min_interval_time_seconds]`). -/
def shortOnes (min_interval_time_seconds : ℚ) (rows : List ARow) :
    List ISum :=
  (summarizeGroups rows).filter fun s => s.time < min_interval_time_seconds

/-- One iteration of the merge loop.  `none` means the loop `break`s leaving
the frame unchanged: either no short interval remains, or no short interval
found a target (`merged_any` stayed `False`, in which case no relabeling
happened).  Otherwise the relabeled frame with re-run-length-encoded ids is
returned. -/
def mergeStep (min_interval_time_seconds : ℚ) (rows : List ARow) :
    Option (List ARow) :=
  let summary := summarizeGroups rows
  let shorts := shortOnes min_interval_time_seconds rows
  if shorts.isEmpty then none
  else if applyMergeAny summary shorts then
    some (reassign (applyMergeRows summary shorts rows))
  else none

/-- The `while iteration < max_iterations` loop with its remaining fuel. -/
def mergeLoop (min_interval_time_seconds : ℚ) : ℕ → List ARow → List ARow
  | 0, rows => rows
  | n + 1, rows =>
    match mergeStep min_interval_time_seconds rows with
    | none => rows
    | some r => mergeLoop min_interval_time_seconds n r

/-- `merge_short_intervals(df, min_interval_time_seconds)` with its
`max_iterations = 100` cap. -/
def merge_short_intervals (min_interval_time_seconds : ℚ)
    (rows : List ARow) : List ARow :=
  mergeLoop min_interval_time_seconds 100 rows

/-- `mark_real_intervals(df, min_interval_time_seconds)`: re-run-length-
encodes the ids, then flags every row of an interval whose total time is at
least the minimum. -/
def mark_real_intervals (min_interval_time_seconds : ℚ)
    (rows : List ARow) : List ARow :=
  let rows1 := reassign rows
  let realIds := (gkeys rows1).filter fun k =>
    min_interval_time_seconds ≤ gsum ((grp rows1 k).map ARow.segTime)
  rows1.map fun r => { r with isReal := r.id ∈ realIds }

/-- `post_process_intervals`: the four refiner stages in sequence. -/
def post_process_intervals (pace_threshold : ℚ)
    (min_interval_time_seconds : ℚ) (rows : List ARow) : List ARow :=
  mark_real_intervals min_interval_time_seconds
    (merge_short_intervals min_interval_time_seconds
      (convert_low_pace_steady_to_recovery pace_threshold
        (convert_slow_intervals_to_recovery rows)))

-- --- Summarizer (summarize_intervals) ---

/-- One record of the interval summary frame.  The heart-rate columns report
`none` for `"N/A"` (the code gates *both* on `pd.isna(avg_hr)`); the
formatted columns are strings as the code produces them. -/
structure IRecord where
  id : ℕ
  type : Label
  totalDistM : ℤ
  totalTime : String
  avgPace : String
  avgHr : Option ℤ
  maxHr : Option ℤ
  isReal : Bool
  recoveryTime : String
deriving DecidableEq, Repr

/-- `is_real_interval` of a group's first row (groups are never empty). -/
def firstReal (g : List ARow) : Bool :=
  match g with
  | [] => false
  | r :: _ => r.isReal

/-- One summary record before the `Recovery Time` column is added. -/
def summaryRecord (rows : List ARow) (k : ℕ) : IRecord :=
  let g := grp rows k
  let t := gsum (g.map ARow.segTime)
  let d := gsum (g.map ARow.segDist)
  let avg := nanmean (g.map ARow.hr)
  let mx := nanmax (g.map ARow.hr)
  { id := k
    type := firstLabel g
    totalDistM := pyRound (d * 1000 / 100) * 100
    totalTime := format_time (some t)
    avgPace := format_pace_min_sec (some t) (some d)
    avgHr := avg.map pyRound
    maxHr := match avg with
      | some _ => mx.map pyRound
      | none => none
    isReal := firstReal g
    recoveryTime := "N/A" }

/-- `df_summary["Recovery Time"] = df_summary["Total Time"].shift(-1)
.fillna("N/A")`: each record carries the next record's total time. -/
def addRecoveryTime (recs : List IRecord) : List IRecord :=
  (List.range recs.length).map fun i =>
    let r := (recs.getD i { summaryRecord [] 0 with id := 0 })
    match recs.get? (i + 1) with
    | some nxt => { r with recoveryTime := nxt.totalTime }
    | none => { r with recoveryTime := "N/A" }

/-- `summarize_intervals(df)`.  When the input frame has no rows, `summary`
is the empty list, `pd.DataFrame(summary)` has no columns, and
`df_summary["Total Time"]` raises `KeyError` — modelled as `Except.error`. -/
def summarize_intervals (rows : List ARow) : Except String (List IRecord) :=
  let recs := (gkeys rows).map (summaryRecord rows)
  if recs.isEmpty then Except.error "KeyError: Total Time"
  else Except.ok (addRecoveryTime recs)

-- --- Configuration (read_param / run_analysis) ---

/-- A configuration value as passed in the `params` dict (numbers in
practice; strings included to model Python truthiness of an empty value). -/
inductive PyVal where
  | num (q : ℚ)
  | str (s : String)
deriving DecidableEq, Repr

/-- Python truthiness of a present value: `0` and `""` are falsy. -/
def pyTruthy (v : PyVal) : Bool :=
  match v with
  | PyVal.num q => decide (q ≠ 0)
  | PyVal.str s => decide (s ≠ "")

/-- `read_param(params, key, default)`: `val = params.get(key); if not val:
val = default; return val` — an absent *or falsy* value is replaced by the
default. -/
def read_param (params : String → Option PyVal) (key : String)
    (default : PyVal) : PyVal :=
  match params key with
  | some v => if pyTruthy v then v else default
  | none => default

/-- Coercions a numeric parameter undergoes when used as a window size
respectively a threshold (parameters are numbers in practice). -/
def PyVal.asNat (v : PyVal) : ℕ :=
  match v with
  | PyVal.num q => (⌊q⌋).toNat
  | PyVal.str _ => 0

def PyVal.asQ (v : PyVal) : ℚ :=
  match v with
  | PyVal.num q => q
  | PyVal.str _ => 0

/-- The five recognized options as `run_analysis` reads them. -/
structure Config5 where
  smoothWin : PyVal
  lmaWin : PyVal
  minTimeSec : PyVal
  minIntervalPacePerKm : PyVal
  paceDifferenceThreshold : PyVal
deriving DecidableEq, Repr

/-- The `read_param` calls at the top of `run_analysis`, with the module
constants as defaults. -/
def analysisConfig (params : String → Option PyVal) : Config5 :=
  { smoothWin := read_param params "smoothWin" (PyVal.num 5)
    lmaWin := read_param params "lmaWin" (PyVal.num 15)
    minTimeSec := read_param params "minTimeSec" (PyVal.num 50)
    minIntervalPacePerKm := read_param params "minIntervalPacePerKm" (PyVal.num 5.5)
    paceDifferenceThreshold := read_param params "paceDifferenceThreshold" (PyVal.num 1) }

-- --- Orchestration (run_analysis) ---

/-- The per-fix pace series record reported as `paceData`. -/
structure PaceRec where
  time : OQ
  tss : OQ
  pace : OQ
  label : Label
  paceLmaDisp : OQ
deriving DecidableEq, Repr

/-- The result dictionary of `run_analysis`: the `"Steady"`-filtered summary
records and the unfiltered pace series. -/
structure AnalysisResult where
  summaryData : List IRecord
  paceData : List PaceRec
deriving DecidableEq, Repr

/-- The derivation/segmentation pipeline of `run_analysis` on an extracted
fix table, with the numeric configuration made explicit. -/
def analysisRows (hav : ℚ → ℚ → ℚ → ℚ → ℚ) (smoothWin lmaWin : ℕ)
    (paceDiffThr paceThr minTimeSec : ℚ) (fixes : List FixRow) : List ARow :=
  post_process_intervals paceThr minTimeSec
    (identify_intervals lmaWin paceDiffThr
      (addPaceLmaDisp lmaWin
        (calculate_pace_min_per_km hav smoothWin fixes)))

/-- `run_analysis(gpx_string, params)` from the parsed track points onward:
read the configuration, extract the fix table, run the pipeline, summarize,
and report the `"Steady"` summary rows plus the full pace series.  The
pandas `KeyError`s on an empty track propagate as `Except.error`. -/
def run_analysis (hav : ℚ → ℚ → ℚ → ℚ → ℚ)
    (params : String → Option PyVal) (raws : List RawFix) :
    Except String AnalysisResult :=
  let cfg := analysisConfig params
  match extract_gpx_data raws with
  | Except.error e => Except.error e
  | Except.ok fixes =>
    let rows := analysisRows hav cfg.smoothWin.asNat cfg.lmaWin.asNat
      cfg.paceDifferenceThreshold.asQ cfg.minIntervalPacePerKm.asQ
      cfg.minTimeSec.asQ fixes
    match summarize_intervals rows with
    | Except.error e => Except.error e
    | Except.ok recs =>
      Except.ok
        { summaryData := recs.filter fun r => r.type = Label.steady
          paceData := rows.map fun r =>
            ⟨r.time, r.tss, r.pace, r.label, r.paceLmaDisp⟩ }

-- --- lambda.py: signed OAuth state ---

/-- `STATE_EXPIRY_SECONDS = 300`. -/
def STATE_EXPIRY_SECONDS : ℚ := 300

/-- Python `str.split(".")`: split on every dot (an input without a dot gives
a single part). -/
def splitDotAux (acc : List Char) : List Char → List (List Char)
  | [] => [acc.reverse]
  | c :: t =>
    if c = '.' then acc.reverse :: splitDotAux [] t
    else splitDotAux (c :: acc) t

def splitDot (s : List Char) : List (List Char) :=
  splitDotAux [] s

/-- `sign_state(payload)`: serialize the payload, MAC it with the state
secret, and join the two url-safe base64 components with `"."`.  The
payload type, `json.dumps`, base64 and HMAC-SHA256 are the excluded
external collaborators and stay abstract. -/
def sign_state {α : Type} (dumps : α → String) (b64e : String → String)
    (hmacSha256 : String → String → String) (secret : String) (p : α) :
    String :=
  b64e (dumps p) ++ "." ++ b64e (hmacSha256 secret (dumps p))

/-- `verify_state(state)`: split into the two components, decode both,
reject on a MAC mismatch (`hmac.compare_digest`), parse the payload, reject
when `time.time() - payload.get("iat", 0) > STATE_EXPIRY_SECONDS`.  Every
raising step (`split` unpack, base64 decode, `json.loads`) is caught by the
`except` clause and yields `None`. -/
def verify_state {α : Type} (loads : String → Option α)
    (b64d : String → Option String) (hmacSha256 : String → String → String)
    (secret : String) (getIat : α → ℚ) (now : ℚ) (state : String) :
    Option α :=
  match splitDot state.data with
  | [db, sb] =>
    match b64d (String.mk db), b64d (String.mk sb) with
    | some data, some sig =>
      if sig = hmacSha256 secret data then
        match loads data with
        | some payload =>
          if STATE_EXPIRY_SECONDS < now - getIat payload then none
          else some payload
        | none => none
      else none
    | _, _ => none
  | _ => none

/-- The relabeling a whole pass performs on one row, described pointwise:
look the row's interval up among the pass's short intervals and, when a
merge target exists, take the target's snapshot type. -/
def passRelabel (summary : List ISum) (shorts : List ISum) (r : ARow) : ARow :=
  match shorts.find? (fun s => s.id = r.id) with
  | some s =>
    match chooseTarget summary s with
    | some t => { r with label := lookupType summary t }
    | none => r
  | none => r

/-- After a reassignment, the id column is exactly the run-length encoding of
the label column: the well-formedness every stage re-establishes. -/
def wfIds (rows : List ARow) : Prop :=
  rows.map ARow.id = rleIds (rows.map ARow.label)

-- --- Concrete inputs used by witnesses and counterexamples ---

/-- A dataframe row as it enters the refiner stages, carrying the columns
those stages read (`segment_time_seconds`, `interval_type`, `interval_id`). -/
def mkMergeRow (t : ℚ) (l : Label) (i : ℕ) : ARow :=
  { time := none, tss := none, lat := none, lon := none, hr := none,
    segTime := some t, segDist := none, pace := none, paceLmaDisp := none,
    paceLma := none, paceDev := none, label := l, id := i, isReal := false }

/-- Three consecutive intervals typed Steady (60 s), Recovery (10 s),
Steady (60 s) — the short-interval-merge example of the specification. -/
def exSteadyRecSteady : List ARow :=
  [mkMergeRow 60 Label.steady 1, mkMergeRow 10 Label.recovery 2,
    mkMergeRow 60 Label.steady 3]

/-- A "fuse" track for the merge loop: 101 alternating short intervals of
10 s followed by one long 1000 s interval.  Every pass absorbs exactly one
short interval into the long tail, so convergence needs 101 passes — one
more than the `max_iterations = 100` cap. -/
def exFuse : List ARow :=
  (List.range 102).map fun i =>
    mkMergeRow (if i = 101 then 1000 else 10)
      (if i % 2 = 0 then Label.steady else Label.recovery) (i + 1)

/-- Alternating label of parity `m` (the binary track alphabet). -/
def lab (m : ℕ) : Label :=
  if m % 2 = 0 then Label.steady else Label.recovery

/-- Row `j` of the fuse track after `p` merge passes: the first `101 - p`
rows are single-fix 10 s intervals with alternating labels (flipped once per
pass), the rest belong to the growing Recovery tail whose last fix carries
the 1000 s segment. -/
def fuseRow (p j : ℕ) : ARow :=
  if j < 101 - p then mkMergeRow 10 (lab (j + p)) (j + 1)
  else mkMergeRow (if j = 101 then 1000 else 10) Label.recovery (102 - p)

/-- The fuse track state after `p` merge passes (`fuseState 0 = exFuse`). -/
def fuseState (p : ℕ) : List ARow :=
  (List.range 102).map (fuseRow p)

/-- The rows of `fuseState p` right after the pass's relabeling, before the
ids are re-run-length-encoded. -/
def fuseRowMerged (p j : ℕ) : ARow :=
  if j < 101 - p then mkMergeRow 10 (lab (j + p + 1)) (j + 1)
  else fuseRow p j

/-- The `summary` frame the pass over `fuseState p` computes. -/
def fuseSummary (p : ℕ) : List ISum :=
  ((List.range (101 - p)).map fun j => ⟨j + 1, 10, lab (j + p)⟩) ++
    [⟨102 - p, 10 * (p : ℚ) + 1000, Label.recovery⟩]

/-- A single 60 s Steady interval (already converged). -/
def exSingleSteady : List ARow := [mkMergeRow 60 Label.steady 1]

/-- A stand-in for `haversine_distance` whose value at the witness points is
1 km; the theorems it instantiates hold for every distance function. -/
def havConst1 : ℚ → ℚ → ℚ → ℚ → ℚ := fun _ _ _ _ => 1

/-- Two fixes with defined positions, 1 second apart; together with
`havConst1` this is the specification's synthetic outlier pair (1 km in 1 s,
i.e. 3600 km/h). -/
def exOutlierFixes : List FixRow :=
  [⟨some 0, some 0, some 0, none, some 0⟩,
    ⟨some 0, some (9/1000), some 1, none, some 1⟩]

/-- A fix table whose middle fix has a missing latitude. -/
def exMissingFixes : List FixRow :=
  [⟨some 0, some 0, some 0, none, some 0⟩,
    ⟨none, some (1/1000), some 10, none, some 10⟩,
    ⟨some (1/1000), some (1/1000), some 20, none, some 20⟩]

/-- A two-point track in which every fix's latitude is missing. -/
def exAllMissingRaws : List RawFix :=
  [⟨none, some 0, none, some 10, some 100⟩,
    ⟨none, some 1, none, some 20, some 110⟩]

/-- A labels list exercising the run-length encoder. -/
def exLabels : List Label :=
  [Label.steady, Label.steady, Label.recovery, Label.steady]

/-- A params dict providing a falsy `smoothWin` and a truthy `lmaWin`. -/
def exParams : String → Option PyVal := fun k =>
  if k = "smoothWin" then some (PyVal.num 0)
  else if k = "lmaWin" then some (PyVal.num 7)
  else none

-- --- Helper lemmas ---

lemma getD_range_map {α : Type} (f : ℕ → α) (n i : ℕ) (h : i < n) (d : α) :
    ((List.range n).map f).getD i d = f i := by
  simp [List.getD, List.getElem?_map, List.getElem?_range, h]

lemma length_rleIdsAux (p : Label) (k : ℕ) (l : List Label) :
    (rleIdsAux p k l).length = l.length := by
  induction l generalizing p k with
  | nil => rfl
  | cons a t ih =>
    by_cases h : a = p <;> simp [rleIdsAux, h, ih]

lemma length_rleIds (l : List Label) : (rleIds l).length = l.length := by
  cases l with
  | nil => rfl
  | cons a t => simp [rleIds, length_rleIdsAux]

lemma rleIdsAux_get? (rest : List Label) :
    ∀ (p : Label) (k i : ℕ), i < rest.length →
      (rleIdsAux p k rest).get? i = some (k + nadj (p :: rest.take (i + 1))) := by
  induction rest with
  | nil => intro p k i h; simp at h
  | cons a t ih =>
    intro p k i h
    cases i with
    | zero =>
      by_cases hp : a = p <;> simp [rleIdsAux, hp, nadj, eq_comm]
    | succ j =>
      have hj : j < t.length := by simpa using h
      by_cases hp : a = p
      · subst hp
        have h2 := ih a k j hj
        calc (rleIdsAux a k (a :: t)).get? (j + 1)
            = (rleIdsAux a k t).get? j := by simp [rleIdsAux]
          _ = some (k + nadj (a :: t.take (j + 1))) := h2
          _ = some (k + nadj (a :: (a :: t).take (j + 1 + 1))) := by
              simp [nadj, List.take_succ_cons]
      · have hne : ¬p = a := fun hc => hp hc.symm
        have h2 := ih a (k + 1) j hj
        calc (rleIdsAux p k (a :: t)).get? (j + 1)
            = (rleIdsAux a (k + 1) t).get? j := by simp [rleIdsAux, hp]
          _ = some (k + 1 + nadj (a :: t.take (j + 1))) := h2
          _ = some (k + nadj (p :: (a :: t).take (j + 1 + 1))) := by
              simp [nadj, List.take_succ_cons, hne, Nat.add_assoc, Nat.add_comm,
                Nat.add_left_comm]

lemma rleIds_get? (labels : List Label) (i : ℕ) (h : i < labels.length) :
    (rleIds labels).get? i = some (1 + nadj (labels.take (i + 1))) := by
  cases labels with
  | nil => simp at h
  | cons a t =>
    cases i with
    | zero => simp [rleIds, nadj]
    | succ j =>
      have hj : j < t.length := by simpa using h
      calc (rleIds (a :: t)).get? (j + 1)
          = (rleIdsAux a 1 t).get? j := by simp [rleIds]
        _ = some (1 + nadj (a :: t.take (j + 1))) := rleIdsAux_get? t a 1 j hj
        _ = some (1 + nadj ((a :: t).take (j + 1 + 1))) := by
            simp [nadj, List.take_succ_cons]

lemma map_zipWith_setId {β : Type} (g : ARow → β)
    (hg : ∀ r k, g { r with id := k } = g r) :
    ∀ (rows : List ARow) (ks : List ℕ), rows.length ≤ ks.length →
      (List.zipWith (fun r k => { r with id := k }) rows ks).map g = rows.map g := by
  intro rows
  induction rows with
  | nil => intro ks _; simp
  | cons r t ih =>
    intro ks h
    cases ks with
    | nil => simp at h
    | cons k kt =>
      have ht : t.length ≤ kt.length := by simpa using h
      simp [List.zipWith, hg, ih kt ht]

lemma map_zipWith_setId_id :
    ∀ (rows : List ARow) (ks : List ℕ), ks.length = rows.length →
      (List.zipWith (fun r k => { r with id := k }) rows ks).map ARow.id = ks := by
  intro rows
  induction rows with
  | nil => intro ks h; simp at h; simp [h]
  | cons r t ih =>
    intro ks h
    cases ks with
    | nil => simp at h
    | cons k kt =>
      have ht : kt.length = t.length := by simpa using h
      simp [List.zipWith, ih kt ht]

lemma reassign_map_label (rows : List ARow) :
    (reassign rows).map ARow.label = rows.map ARow.label := by
  apply map_zipWith_setId
  · intro r k; rfl
  · simp [length_rleIds]

lemma reassign_map_id (rows : List ARow) :
    (reassign rows).map ARow.id = rleIds (rows.map ARow.label) := by
  apply map_zipWith_setId_id
  simp [length_rleIds]

lemma length_reassign (rows : List ARow) :
    (reassign rows).length = rows.length := by
  simp [reassign, length_rleIds]

lemma wfIds_reassign (rows : List ARow) : wfIds (reassign rows) := by
  unfold wfIds
  rw [reassign_map_id, reassign_map_label]

lemma nodup_gkeys (rows : List ARow) : (gkeys rows).Nodup :=
  List.nodup_dedup _

lemma summarizeGroups_map_id (rows : List ARow) :
    (summarizeGroups rows).map ISum.id = gkeys rows := by
  unfold summarizeGroups
  rw [List.map_map]
  exact List.map_id' _

lemma nodup_shortOnes_map_id (minT : ℚ) (rows : List ARow) :
    ((shortOnes minT rows).map ISum.id).Nodup := by
  have h1 : ((summarizeGroups rows).map ISum.id).Nodup := by
    rw [summarizeGroups_map_id]; exact nodup_gkeys rows
  exact h1.sublist ((List.filter_sublist (summarizeGroups rows)).map ISum.id)

lemma applyMergeRows_eq_map (summary : List ISum) :
    ∀ (shorts : List ISum) (rows : List ARow), ((shorts.map ISum.id).Nodup) →
      applyMergeRows summary shorts rows = rows.map (passRelabel summary shorts) := by
  intro shorts
  induction shorts with
  | nil =>
    intro rows _
    show rows = rows.map (passRelabel summary [])
    have hp : ∀ r, passRelabel summary [] r = r := by
      intro r; simp [passRelabel]
    have hmap : rows.map (passRelabel summary []) = rows.map (fun r => r) :=
      List.map_congr_left (fun r _ => hp r)
    rw [hmap, List.map_id']
  | cons s rest ih =>
    intro rows hnd
    rw [List.map_cons] at hnd
    have hnotin : s.id ∉ rest.map ISum.id := (List.nodup_cons.mp hnd).1
    have hndt : (rest.map ISum.id).Nodup := (List.nodup_cons.mp hnd).2
    have hfind : ∀ m : ℕ, m = s.id →
        rest.find? (fun s2 => s2.id = m) = none := by
      intro m hm
      rw [List.find?_eq_none]
      intro x hx
      simp only [decide_eq_true_eq]
      intro hxr
      exact hnotin (by
        rw [hm] at hxr
        exact hxr ▸ List.mem_map_of_mem ISum.id hx)
    have hfold : applyMergeRows summary (s :: rest) rows =
        applyMergeRows summary rest (applyMergeStepRows summary s rows) := rfl
    rw [hfold, ih _ hndt]
    cases hct : chooseTarget summary s with
    | none =>
      simp only [applyMergeStepRows, hct]
      apply List.map_congr_left
      intro r _
      by_cases hid : r.id = s.id
      · simp [passRelabel, List.find?_cons, hid, hct, hfind s.id rfl]
      · have hid2 : ¬s.id = r.id := fun hc => hid hc.symm
        simp [passRelabel, List.find?_cons, hid2]
    | some t =>
      simp only [applyMergeStepRows, hct]
      rw [List.map_map]
      apply List.map_congr_left
      intro r _
      by_cases hid : r.id = s.id
      · have step1 : (passRelabel summary rest ∘ fun r2 =>
            if r2.id = s.id then { r2 with label := lookupType summary t } else r2) r
              = passRelabel summary rest { r with label := lookupType summary t } := by
          simp [Function.comp, hid]
        have step2 : passRelabel summary rest { r with label := lookupType summary t }
              = { r with label := lookupType summary t } := by
          simp [passRelabel, hfind r.id hid, hfind s.id rfl]
        have step3 : passRelabel summary (s :: rest) r
              = { r with label := lookupType summary t } := by
          have hsr : s.id = r.id := hid.symm
          simp [passRelabel, List.find?_cons, hsr, hct]
        rw [step1, step2, step3]
      · have hid2 : ¬s.id = r.id := fun hc => hid hc.symm
        have step1 : (passRelabel summary rest ∘ fun r2 =>
            if r2.id = s.id then { r2 with label := lookupType summary t } else r2) r
              = passRelabel summary rest r := by
          simp [Function.comp, hid]
        have step3 : passRelabel summary (s :: rest) r = passRelabel summary rest r := by
          simp [passRelabel, List.find?_cons, hid2]
        rw [step1, step3]

lemma mergeLoop_of_stepNone {minT : ℚ} {rows : List ARow}
    (h : mergeStep minT rows = none) :
    ∀ n, mergeLoop minT n rows = rows := by
  intro n
  cases n with
  | zero => rfl
  | succ m => simp [mergeLoop, h]

lemma mergeLoop_stabilize (minT : ℚ) :
    ∀ (k n : ℕ) (rows : List ARow), k ≤ n →
      mergeStep minT (mergeLoop minT k rows) = none →
      mergeLoop minT n rows = mergeLoop minT k rows := by
  intro k
  induction k with
  | zero =>
    intro n rows _ h
    have h0 : mergeLoop minT 0 rows = rows := rfl
    rw [h0] at h ⊢
    exact mergeLoop_of_stepNone h n
  | succ j ih =>
    intro n rows hkn h
    cases n with
    | zero => omega
    | succ m =>
      cases hstep : mergeStep minT rows with
      | none =>
        have e1 : mergeLoop minT (j + 1) rows = rows := by
          simp [mergeLoop, hstep]
        rw [e1] at h ⊢
        simp [mergeLoop, hstep]
      | some r =>
        have hj : j ≤ m := by omega
        have e1 : mergeLoop minT (j + 1) rows = mergeLoop minT j r := by
          simp [mergeLoop, hstep]
        rw [e1] at h ⊢
        have e2 : mergeLoop minT (m + 1) rows = mergeLoop minT m r := by
          simp [mergeLoop, hstep]
        rw [e2]
        exact ih m r hj h

lemma wfIds_mergeLoop (minT : ℚ) :
    ∀ (n : ℕ) (rows : List ARow), wfIds rows → wfIds (mergeLoop minT n rows) := by
  intro n
  induction n with
  | zero => intro rows h; exact h
  | succ m ih =>
    intro rows h
    cases hstep : mergeStep minT rows with
    | none => simpa [mergeLoop, hstep] using h
    | some r =>
      have hr : wfIds r := by
        have : ∃ rows2, r = reassign rows2 := by
          unfold mergeStep at hstep
          by_cases h1 : (shortOnes minT rows).isEmpty
          · simp [h1] at hstep
          · by_cases h2 : applyMergeAny (summarizeGroups rows) (shortOnes minT rows)
            · refine ⟨applyMergeRows (summarizeGroups rows) (shortOnes minT rows) rows, ?_⟩
              simp [h1, h2] at hstep
              exact hstep.symm
            · simp [h1, h2] at hstep
        obtain ⟨rows2, hr2⟩ := this
        rw [hr2]; exact wfIds_reassign rows2
      simpa [mergeLoop, hstep] using ih r hr

lemma nadj_take_succ :
    ∀ (l : List Label) (i : ℕ), i + 1 < l.length →
      nadj (l.take (i + 2)) =
        nadj (l.take (i + 1)) + (if l.get? (i + 1) = l.get? i then 0 else 1) := by
  intro l
  induction l with
  | nil => intro i h; simp at h
  | cons a t ih =>
    intro i h
    cases t with
    | nil => simp at h
    | cons b t2 =>
      cases i with
      | zero =>
        by_cases hab : b = a <;>
          simp [nadj, List.take, hab, eq_comm, Nat.add_comm]
      | succ j =>
        have hj : j + 1 < (b :: t2).length := by simpa using h
        have hrec := ih j hj
        have e1 : (a :: b :: t2).take (j + 3) = a :: (b :: t2).take (j + 2) := rfl
        have e2 : (a :: b :: t2).take (j + 2) = a :: (b :: t2).take (j + 1) := rfl
        have e3 : ∀ X, (b :: t2).take (X + 1) = b :: t2.take X := fun X => rfl
        rw [show j + 1 + 2 = j + 3 by ring, e1, e2, e3, e3]
        have hn : ∀ Y : List Label, nadj (a :: b :: Y) =
            (if a = b then 0 else 1) + nadj (b :: Y) := by
          intro Y; rfl
        rw [hn, hn]
        rw [e3, e3] at hrec
        have hget : ∀ (X : List Label) (m : ℕ), (a :: X).get? (m + 1) = X.get? m := by
          intro X m; rfl
        rw [hget, hget]
        omega

lemma nadj_take_mono (l : List Label) :
    ∀ (i j : ℕ), i ≤ j → nadj (l.take i) ≤ nadj (l.take j) := by
  intro i j hij
  induction j with
  | zero => simp at hij; simp [hij]
  | succ m ih =>
    rcases Nat.lt_or_ge i (m + 1) with hlt | hge
    · have him : i ≤ m := by omega
      refine (ih him).trans ?_
      rcases Nat.lt_or_ge m l.length with hml | hml
      · cases m with
        | zero => simp [nadj]
        | succ p =>
          have := nadj_take_succ l p (by omega)
          rw [show p + 2 = p + 1 + 1 by ring] at this
          omega
      · rw [List.take_of_length_le hml, List.take_of_length_le (by omega)]
    · have hieq : i = m + 1 := by omega
      simp [hieq]

lemma wfIds_identify (lmaW : ℕ) (thr : ℚ) (rows : List ARow) :
    wfIds (identify_intervals lmaW thr rows) := by
  unfold identify_intervals
  exact wfIds_reassign _

lemma wfIds_convert_slow (rows : List ARow) :
    wfIds (convert_slow_intervals_to_recovery rows) := by
  unfold convert_slow_intervals_to_recovery
  exact wfIds_reassign _

lemma wfIds_convert_low (thr : ℚ) (rows : List ARow) :
    wfIds (convert_low_pace_steady_to_recovery thr rows) := by
  unfold convert_low_pace_steady_to_recovery
  exact wfIds_reassign _

lemma wfIds_merge (minT : ℚ) (rows : List ARow) (h : wfIds rows) :
    wfIds (merge_short_intervals minT rows) :=
  wfIds_mergeLoop minT 100 rows h

lemma wfIds_mark_real (minT : ℚ) (rows : List ARow) :
    wfIds (mark_real_intervals minT rows) := by
  unfold mark_real_intervals wfIds
  rw [List.map_map, List.map_map]
  exact wfIds_reassign rows

lemma getD_map_get {α β : Type} (f : α → β) (l : List α) (i : ℕ)
    (h : i < l.length) (d : β) : (l.map f).getD i d = f (l.get ⟨i, h⟩) := by
  simp [List.getD, List.getElem?_map, List.getElem?_eq_getElem, h]

lemma getD_replicate_none (n i : ℕ) (h : i < n) (d : OQ) :
    (List.replicate n (none : OQ)).getD i d = none := by
  simp [List.getD, List.getElem?_replicate, h]

lemma range_map_getD {α : Type} (l : List α) (d : α) :
    (List.range l.length).map (fun i => l.getD i d) = l := by
  apply List.ext_get?
  intro i
  rcases Nat.lt_or_ge i l.length with h | h
  · simp [List.get?_eq_getElem?, List.getElem?_map, List.getElem?_range, h,
      List.getD, List.getElem?_eq_getElem]
  · rw [List.get?_eq_getElem?, List.get?_eq_getElem?,
      List.getElem?_eq_none (by simpa using h), List.getElem?_eq_none h]

lemma map_of_range_getD {α β : Type} [Inhabited α] (g : α → β) (l : List α) :
    (List.range l.length).map (fun i => g (l.getD i default)) = l.map g := by
  apply List.ext_get?
  intro i
  rcases Nat.lt_or_ge i l.length with h | h
  · simp [List.get?_eq_getElem?, List.getElem?_map, List.getElem?_range, h,
      List.getD, List.getElem?_eq_getElem]
  · rw [List.get?_eq_getElem?, List.get?_eq_getElem?,
      List.getElem?_eq_none (by simpa using h), List.getElem?_eq_none (by simpa using h)]

lemma map_zipWith_update {β γ : Type} (u : ARow → γ → ARow) (g : ARow → β)
    (hg : ∀ r k, g (u r k) = g r) :
    ∀ (rows : List ARow) (ks : List γ), rows.length ≤ ks.length →
      (List.zipWith u rows ks).map g = rows.map g := by
  intro rows
  induction rows with
  | nil => intro ks _; simp
  | cons r t ih =>
    intro ks h
    cases ks with
    | nil => simp at h
    | cons k kt =>
      have ht : t.length ≤ kt.length := by simpa using h
      simp [List.zipWith, hg, ih kt ht]

lemma map_zipWith_update_val {γ : Type} (u : ARow → γ → ARow) (g : ARow → γ)
    (hg : ∀ r k, g (u r k) = k) :
    ∀ (rows : List ARow) (ks : List γ), ks.length = rows.length →
      (List.zipWith u rows ks).map g = ks := by
  intro rows
  induction rows with
  | nil => intro ks h; simp at h; simp [h]
  | cons r t ih =>
    intro ks h
    cases ks with
    | nil => simp at h
    | cons k kt =>
      have ht : kt.length = t.length := by simpa using h
      simp [List.zipWith, hg, ih kt ht]

lemma mem_of_map_replicate {β : Type} [DecidableEq β] (g : ARow → β)
    (rows : List ARow) (n : ℕ) (v : β) (h : rows.map g = List.replicate n v)
    (r : ARow) (hr : r ∈ rows) : g r = v := by
  have : g r ∈ List.replicate n v := h ▸ List.mem_map_of_mem g hr
  exact List.eq_of_mem_replicate this

lemma filterMap_id_replicate_none (n : ℕ) :
    (List.replicate n (none : OQ)).filterMap id = [] := by
  simp [List.filterMap_replicate]

lemma nansum_replicate_none (n : ℕ) :
    nansum (List.replicate n (none : OQ)) = none := by
  simp [nansum, filterMap_id_replicate_none]

lemma nanmean_replicate_none (n : ℕ) :
    nanmean (List.replicate n (none : OQ)) = none := by
  simp [nanmean, filterMap_id_replicate_none]

lemma gsum_replicate_none (n : ℕ) :
    gsum (List.replicate n (none : OQ)) = 0 := by
  simp [gsum, filterMap_id_replicate_none]

lemma rollSum_replicate_none (w n : ℕ) :
    rollSum w (List.replicate n (none : OQ)) = List.replicate n none := by
  apply List.eq_replicate_iff.mpr
  constructor
  · simp [rollSum]
  · intro b hb
    obtain ⟨i, hi, rfl⟩ := List.mem_map.mp hb
    simp [windowAt, List.take_replicate, List.drop_replicate, nansum_replicate_none]

lemma rollMeanCentered_replicate_none (w n : ℕ) :
    rollMeanCentered w (List.replicate n (none : OQ)) = List.replicate n none := by
  apply List.eq_replicate_iff.mpr
  constructor
  · simp [rollMeanCentered]
  · intro b hb
    obtain ⟨i, hi, rfl⟩ := List.mem_map.mp hb
    simp [centerWindowAt, List.take_replicate, List.drop_replicate,
      nanmean_replicate_none]

lemma rleIdsAux_replicate (a : Label) (k : ℕ) :
    ∀ m, rleIdsAux a k (List.replicate m a) = List.replicate m k := by
  intro m
  induction m with
  | zero => rfl
  | succ p ih => simp [List.replicate, rleIdsAux, ih]

lemma rleIds_replicate (a : Label) (n : ℕ) :
    rleIds (List.replicate n a) = List.replicate n 1 := by
  cases n with
  | zero => rfl
  | succ m => simp [List.replicate, rleIds, rleIdsAux_replicate]

lemma segDistCol_all_missing (hav : ℚ → ℚ → ℚ → ℚ → ℚ) (fixes : List FixRow)
    (h : ∀ f ∈ fixes, f.lat = none ∨ f.lon = none) :
    segDistCol hav fixes = List.replicate fixes.length none := by
  apply List.eq_replicate_iff.mpr
  refine ⟨by simp [segDistCol], ?_⟩
  intro b hb
  obtain ⟨i, hi, rfl⟩ := List.mem_map.mp hb
  have hi2 := List.mem_range.mp hi
  have hcoord := h _ (List.get_mem fixes i hi2)
  have hlat : (fixes.map FixRow.lat).getD i none = (fixes.get ⟨i, hi2⟩).lat :=
    getD_map_get _ _ _ hi2 _
  have hlon : (fixes.map FixRow.lon).getD i none = (fixes.get ⟨i, hi2⟩).lon :=
    getD_map_get _ _ _ hi2 _
  rcases hcoord with hc | hc
  · unfold segDistAt
    rw [hlat, hc]
    simp
  · unfold segDistAt
    rw [hlon, hc]
    simp

lemma paceCol_all_missing (hav : ℚ → ℚ → ℚ → ℚ → ℚ) (w : ℕ)
    (fixes : List FixRow) (h : ∀ f ∈ fixes, f.lat = none ∨ f.lon = none) :
    paceCol hav w fixes = List.replicate fixes.length none := by
  apply List.eq_replicate_iff.mpr
  refine ⟨by simp [paceCol], ?_⟩
  intro b hb
  obtain ⟨i, hi, rfl⟩ := List.mem_map.mp hb
  have hi2 := List.mem_range.mp hi
  rw [segDistCol_all_missing hav fixes h, rollSum_replicate_none,
    getD_replicate_none _ _ hi2]
  simp [paceAt]

lemma insertNat_one_replicate (m : ℕ) :
    insertNat 1 (List.replicate m 1) = List.replicate (m + 1) 1 := by
  cases m with
  | zero => rfl
  | succ p => simp [List.replicate, insertNat]

lemma sortNat_replicate_one (n : ℕ) :
    sortNat (List.replicate n 1) = List.replicate n 1 := by
  induction n with
  | zero => rfl
  | succ m ih => simp [List.replicate, sortNat, ih, insertNat_one_replicate]

lemma dedup_replicate_one (n : ℕ) (h : 0 < n) :
    (List.replicate n (1 : ℕ)).dedup = [1] := by
  induction n with
  | zero => omega
  | succ m ih =>
    cases m with
    | zero => rfl
    | succ p =>
      have hmem : (1 : ℕ) ∈ List.replicate (p + 1) 1 := by
        simp [List.mem_replicate]
      calc (List.replicate (p + 1 + 1) (1 : ℕ)).dedup
          = ((1 : ℕ) :: List.replicate (p + 1) 1).dedup := rfl
        _ = (List.replicate (p + 1) (1 : ℕ)).dedup := List.dedup_cons_of_mem hmem
        _ = [1] := ih (by omega)

lemma gkeys_single (rows : List ARow)
    (hid : rows.map ARow.id = List.replicate rows.length 1) (hne : rows ≠ []) :
    gkeys rows = [1] := by
  unfold gkeys
  rw [hid, sortNat_replicate_one, dedup_replicate_one]
  simpa using List.length_pos.mpr hne

lemma grp_all (rows : List ARow)
    (hid : rows.map ARow.id = List.replicate rows.length 1) :
    grp rows 1 = rows := by
  unfold grp
  apply List.filter_eq_self.mpr
  intro r hr
  have := mem_of_map_replicate ARow.id rows rows.length 1 hid r hr
  simp [this]

lemma chooseTarget_singleton (s : ISum) : chooseTarget [s] s = none := by
  simp [chooseTarget, List.indexOf_cons_self]

lemma mergeStep_single (minT : ℚ) (rows : List ARow)
    (hid : rows.map ARow.id = List.replicate rows.length 1) (hne : rows ≠ []) :
    mergeStep minT rows = none := by
  unfold mergeStep shortOnes
  have hsum : summarizeGroups rows =
      [⟨1, gsum ((grp rows 1).map ARow.segTime), firstLabel (grp rows 1)⟩] := by
    unfold summarizeGroups
    rw [gkeys_single rows hid hne]
    rfl
  rw [hsum]
  by_cases hshort : gsum ((grp rows 1).map ARow.segTime) < minT
  · simp [hshort, applyMergeAny, chooseTarget_singleton]
  · simp [hshort]

lemma reassign_map_other {β : Type} (g : ARow → β)
    (hg : ∀ r k, g { r with id := k } = g r) (rows : List ARow) :
    (reassign rows).map g = rows.map g :=
  map_zipWith_update _ g hg rows _ (by simp [length_rleIds])

lemma addPaceLmaDisp_map {β : Type} (g : ARow → β)
    (hg : ∀ r m, g { r with paceLmaDisp := m } = g r) (lw : ℕ)
    (rows : List ARow) :
    (addPaceLmaDisp lw rows).map g = rows.map g :=
  map_zipWith_update _ g hg rows _ (by simp [rollMeanCentered])

lemma addPaceLmaDisp_disp (lw : ℕ) (rows : List ARow) :
    (addPaceLmaDisp lw rows).map ARow.paceLmaDisp =
      rollMeanCentered lw (rows.map ARow.pace) :=
  map_zipWith_update_val _ _ (fun _ _ => rfl) rows _ (by simp [rollMeanCentered])

lemma addPaceLmaDisp_length (lw : ℕ) (rows : List ARow) :
    (addPaceLmaDisp lw rows).length = rows.length := by
  simp [addPaceLmaDisp, rollMeanCentered]

lemma identify_map_pres {β : Type} (g : ARow → β)
    (hg1 : ∀ r lma dev lab,
      g { r with paceLma := lma, paceDev := dev, label := lab } = g r)
    (hg2 : ∀ r k, g { r with id := k } = g r) (lw : ℕ) (thr : ℚ)
    (rows : List ARow) :
    (identify_intervals lw thr rows).map g = rows.map g := by
  unfold identify_intervals
  rw [reassign_map_other g hg2, List.map_map]
  have hcongr : ∀ i ∈ List.range rows.length,
      (g ∘ fun i =>
        { rows.getD i default with
          paceLma := paceLmaAt
            (((rollSum lw (rows.map ARow.segTime)).map
              (Option.map fun t => t / 60)).getD i none)
            ((rollSum lw (rows.map ARow.segDist)).getD i none)
          paceDev := osub (paceLmaAt
            (((rollSum lw (rows.map ARow.segTime)).map
              (Option.map fun t => t / 60)).getD i none)
            ((rollSum lw (rows.map ARow.segDist)).getD i none))
            (rows.getD i default).pace
          label :=
            if olt (osub (paceLmaAt
              (((rollSum lw (rows.map ARow.segTime)).map
                (Option.map fun t => t / 60)).getD i none)
              ((rollSum lw (rows.map ARow.segDist)).getD i none))
              (rows.getD i default).pace) (-thr) = true then Label.slowInterval
            else Label.steady }) i = g (rows.getD i default) := by
    intro i _
    exact hg1 _ _ _ _
  rw [List.map_congr_left hcongr]
  exact map_of_range_getD g rows

lemma identify_length (lw : ℕ) (thr : ℚ) (rows : List ARow) :
    (identify_intervals lw thr rows).length = rows.length := by
  unfold identify_intervals
  rw [length_reassign]
  simp

lemma identify_labels_missing (lw : ℕ) (thr : ℚ) (rows : List ARow)
    (hseg : rows.map ARow.segDist = List.replicate rows.length none) :
    (identify_intervals lw thr rows).map ARow.label =
      List.replicate rows.length Label.steady := by
  unfold identify_intervals
  rw [reassign_map_label]
  apply List.eq_replicate_iff.mpr
  refine ⟨by simp, ?_⟩
  intro b hb
  rw [List.map_map] at hb
  obtain ⟨i, hi, rfl⟩ := List.mem_map.mp hb
  have hi2 := List.mem_range.mp hi
  have hroll : (rollSum lw (rows.map ARow.segDist)).getD i none = none := by
    rw [hseg, rollSum_replicate_none]
    exact getD_replicate_none _ _ hi2 _
  rw [List.getD_eq_getElem?_getD] at hroll
  simp [Function.comp, hroll, paceLmaAt, osub, olt]

lemma identify_paceLma_missing (lw : ℕ) (thr : ℚ) (rows : List ARow)
    (hseg : rows.map ARow.segDist = List.replicate rows.length none) :
    (identify_intervals lw thr rows).map ARow.paceLma =
      List.replicate rows.length none := by
  unfold identify_intervals
  rw [reassign_map_other ARow.paceLma (fun _ _ => rfl)]
  apply List.eq_replicate_iff.mpr
  refine ⟨by simp, ?_⟩
  intro b hb
  rw [List.map_map] at hb
  obtain ⟨i, hi, rfl⟩ := List.mem_map.mp hb
  have hi2 := List.mem_range.mp hi
  have hroll : (rollSum lw (rows.map ARow.segDist)).getD i none = none := by
    rw [hseg, rollSum_replicate_none]
    exact getD_replicate_none _ _ hi2 _
  rw [List.getD_eq_getElem?_getD] at hroll
  simp [Function.comp, hroll, paceLmaAt]

lemma identify_ids_missing (lw : ℕ) (thr : ℚ) (rows : List ARow)
    (hseg : rows.map ARow.segDist = List.replicate rows.length none) :
    (identify_intervals lw thr rows).map ARow.id =
      List.replicate rows.length 1 := by
  have h1 : (identify_intervals lw thr rows).map ARow.id =
      rleIds ((identify_intervals lw thr rows).map ARow.label) :=
    wfIds_identify lw thr rows
  rw [h1, identify_labels_missing lw thr rows hseg, rleIds_replicate]

lemma calc_length (hav : ℚ → ℚ → ℚ → ℚ → ℚ) (w : ℕ) (fixes : List FixRow) :
    (calculate_pace_min_per_km hav w fixes).length = fixes.length := by
  simp [calculate_pace_min_per_km]

lemma calc_segDist_missing (hav : ℚ → ℚ → ℚ → ℚ → ℚ) (w : ℕ)
    (fixes : List FixRow) (h : ∀ f ∈ fixes, f.lat = none ∨ f.lon = none) :
    (calculate_pace_min_per_km hav w fixes).map ARow.segDist =
      List.replicate fixes.length none := by
  apply List.eq_replicate_iff.mpr
  refine ⟨by simp [calculate_pace_min_per_km], ?_⟩
  intro b hb
  unfold calculate_pace_min_per_km at hb
  rw [List.map_map] at hb
  obtain ⟨i, hi, rfl⟩ := List.mem_map.mp hb
  have hi2 := List.mem_range.mp hi
  show (segDistCol hav fixes).getD i none = none
  rw [segDistCol_all_missing hav fixes h]
  exact getD_replicate_none _ _ hi2 _

lemma calc_pace_missing (hav : ℚ → ℚ → ℚ → ℚ → ℚ) (w : ℕ)
    (fixes : List FixRow) (h : ∀ f ∈ fixes, f.lat = none ∨ f.lon = none) :
    (calculate_pace_min_per_km hav w fixes).map ARow.pace =
      List.replicate fixes.length none := by
  apply List.eq_replicate_iff.mpr
  refine ⟨by simp [calculate_pace_min_per_km], ?_⟩
  intro b hb
  unfold calculate_pace_min_per_km at hb
  rw [List.map_map] at hb
  obtain ⟨i, hi, rfl⟩ := List.mem_map.mp hb
  have hi2 := List.mem_range.mp hi
  show (paceCol hav w fixes).getD i none = none
  rw [paceCol_all_missing hav w fixes h]
  exact getD_replicate_none _ _ hi2 _

lemma calc_label_steady (hav : ℚ → ℚ → ℚ → ℚ → ℚ) (w : ℕ)
    (fixes : List FixRow) :
    (calculate_pace_min_per_km hav w fixes).map ARow.label =
      List.replicate fixes.length Label.steady := by
  apply List.eq_replicate_iff.mpr
  refine ⟨by simp [calculate_pace_min_per_km], ?_⟩
  intro b hb
  unfold calculate_pace_min_per_km at hb
  rw [List.map_map] at hb
  obtain ⟨i, hi, rfl⟩ := List.mem_map.mp hb
  rfl

lemma convert_slow_noop_labels (rows : List ARow)
    (h : rows.map ARow.label = List.replicate rows.length Label.steady) :
    convert_slow_intervals_to_recovery rows = reassign rows := by
  unfold convert_slow_intervals_to_recovery
  have hmap : rows.map (fun r =>
      if r.label = Label.slowInterval then { r with label := Label.recovery }
      else r) = rows.map (fun r => r) := by
    apply List.map_congr_left
    intro r hr
    have hl := mem_of_map_replicate ARow.label rows rows.length Label.steady h r hr
    simp [hl]
  rw [hmap, List.map_id']

lemma convert_low_missing (thr : ℚ) (rows : List ARow) (hne : rows ≠ [])
    (hid : rows.map ARow.id = List.replicate rows.length 1)
    (hlabel : rows.map ARow.label = List.replicate rows.length Label.steady)
    (hseg : rows.map ARow.segDist = List.replicate rows.length none) :
    convert_low_pace_steady_to_recovery thr rows =
      reassign (rows.map fun r => { r with label := Label.recovery }) := by
  have hgk : gkeys rows = [1] := gkeys_single rows hid hne
  have hlow : lowPaceSteady rows thr 1 = true := by
    simp only [lowPaceSteady]
    rw [grp_all rows hid, hseg, gsum_replicate_none]
    have hfl : firstLabel rows = Label.steady := by
      cases rows with
      | nil => exact absurd rfl hne
      | cons r t =>
        have hr := mem_of_map_replicate ARow.label (r :: t) (r :: t).length
          Label.steady hlabel r (List.mem_cons_self r t)
        simpa [firstLabel] using hr
    rw [hfl]
    norm_num [MIN_DISTANCE_FOR_PACE_KM, ogt]
  have hfilter : ([1].filter (lowPaceSteady rows thr)) = [1] := by
    simp [List.filter, hlow]
  have hmap : rows.map (fun r =>
      if r.id ∈ [1] then { r with label := Label.recovery } else r) =
      rows.map (fun r => { r with label := Label.recovery }) := by
    apply List.map_congr_left
    intro r hr
    have hr1 : r.id = 1 :=
      mem_of_map_replicate ARow.id rows rows.length 1 hid r hr
    simp [hr1]
  simp only [convert_low_pace_steady_to_recovery, hgk, hfilter]
  rw [hmap]

lemma convert_slow_length (rows : List ARow) :
    (convert_slow_intervals_to_recovery rows).length = rows.length := by
  simp [convert_slow_intervals_to_recovery, length_reassign]

lemma convert_low_length (thr : ℚ) (rows : List ARow) :
    (convert_low_pace_steady_to_recovery thr rows).length = rows.length := by
  simp [convert_low_pace_steady_to_recovery, length_reassign]

lemma map_comp_update_isReal {β : Type} (g : ARow → β)
    (hg1 : ∀ r b, g { r with isReal := b } = g r) (l : List ARow)
    (p : ARow → Bool) :
    l.map (fun r => g { r with isReal := p r }) = l.map g :=
  List.map_congr_left (fun r _ => hg1 r (p r))

lemma mark_real_map_pres {β : Type} (g : ARow → β)
    (hg1 : ∀ r b, g { r with isReal := b } = g r)
    (hg2 : ∀ r k, g { r with id := k } = g r) (minT : ℚ) (rows : List ARow) :
    (mark_real_intervals minT rows).map g = rows.map g := by
  unfold mark_real_intervals
  rw [List.map_map]
  exact (map_comp_update_isReal g hg1 (reassign rows) _).trans
    (reassign_map_other g hg2 rows)

lemma mark_real_map_id (minT : ℚ) (rows : List ARow) :
    (mark_real_intervals minT rows).map ARow.id = rleIds (rows.map ARow.label) := by
  unfold mark_real_intervals
  rw [List.map_map]
  exact (map_comp_update_isReal ARow.id (fun _ _ => rfl) (reassign rows) _).trans
    (reassign_map_id rows)

lemma mark_real_length (minT : ℚ) (rows : List ARow) :
    (mark_real_intervals minT rows).length = rows.length := by
  simp [mark_real_intervals, length_reassign]

lemma analysisRows_all_missing (hav : ℚ → ℚ → ℚ → ℚ → ℚ) (sw lw : ℕ)
    (thr pThr minT : ℚ) (fixes : List FixRow) (hne : fixes ≠ [])
    (h : ∀ f ∈ fixes, f.lat = none ∨ f.lon = none) :
    (analysisRows hav sw lw thr pThr minT fixes).length = fixes.length ∧
    (analysisRows hav sw lw thr pThr minT fixes).map ARow.segDist =
      List.replicate fixes.length none ∧
    (analysisRows hav sw lw thr pThr minT fixes).map ARow.pace =
      List.replicate fixes.length none ∧
    (analysisRows hav sw lw thr pThr minT fixes).map ARow.paceLma =
      List.replicate fixes.length none ∧
    (analysisRows hav sw lw thr pThr minT fixes).map ARow.paceLmaDisp =
      List.replicate fixes.length none ∧
    (analysisRows hav sw lw thr pThr minT fixes).map ARow.label =
      List.replicate fixes.length Label.recovery ∧
    (analysisRows hav sw lw thr pThr minT fixes).map ARow.id =
      List.replicate fixes.length 1 := by
  have hn : 0 < fixes.length := List.length_pos.mpr hne
  -- stage A: the segment deriver
  have hAlen := calc_length hav sw fixes
  have hAseg := calc_segDist_missing hav sw fixes h
  have hApace := calc_pace_missing hav sw fixes h
  have hAlabel := calc_label_steady hav sw fixes
  -- stage B: the centered display smoothing
  have hBlen : (addPaceLmaDisp lw (calculate_pace_min_per_km hav sw fixes)).length
      = fixes.length := by
    rw [addPaceLmaDisp_length, hAlen]
  have hBseg : (addPaceLmaDisp lw (calculate_pace_min_per_km hav sw fixes)).map
      ARow.segDist = List.replicate fixes.length none :=
    (addPaceLmaDisp_map ARow.segDist (fun _ _ => rfl) lw _).trans hAseg
  have hBpace : (addPaceLmaDisp lw (calculate_pace_min_per_km hav sw fixes)).map
      ARow.pace = List.replicate fixes.length none :=
    (addPaceLmaDisp_map ARow.pace (fun _ _ => rfl) lw _).trans hApace
  have hBdisp : (addPaceLmaDisp lw (calculate_pace_min_per_km hav sw fixes)).map
      ARow.paceLmaDisp = List.replicate fixes.length none := by
    rw [addPaceLmaDisp_disp, hApace, rollMeanCentered_replicate_none]
  -- stage C: the classifier
  set B := addPaceLmaDisp lw (calculate_pace_min_per_km hav sw fixes) with hBdef
  have hBseg2 : B.map ARow.segDist = List.replicate B.length none := by
    rw [hBlen]; exact hBseg
  set C := identify_intervals lw thr B with hCdef
  have hClen : C.length = fixes.length := by
    rw [hCdef, identify_length, hBlen]
  have hCseg : C.map ARow.segDist = List.replicate fixes.length none :=
    (identify_map_pres ARow.segDist (fun _ _ _ _ => rfl) (fun _ _ => rfl) lw thr B).trans hBseg
  have hCpace : C.map ARow.pace = List.replicate fixes.length none :=
    (identify_map_pres ARow.pace (fun _ _ _ _ => rfl) (fun _ _ => rfl) lw thr B).trans hBpace
  have hCdisp : C.map ARow.paceLmaDisp = List.replicate fixes.length none :=
    (identify_map_pres ARow.paceLmaDisp (fun _ _ _ _ => rfl) (fun _ _ => rfl) lw thr B).trans hBdisp
  have hClma : C.map ARow.paceLma = List.replicate fixes.length none := by
    rw [hCdef]
    rw [identify_paceLma_missing lw thr B hBseg2, hBlen]
  have hClabel : C.map ARow.label = List.replicate fixes.length Label.steady := by
    rw [hCdef]
    rw [identify_labels_missing lw thr B hBseg2, hBlen]
  -- stage D: Slow Interval -> Recovery (a no-op on all-Steady labels)
  have hClabel2 : C.map ARow.label = List.replicate C.length Label.steady := by
    rw [hClen]; exact hClabel
  have hD : convert_slow_intervals_to_recovery C = reassign C :=
    convert_slow_noop_labels C hClabel2
  set D := reassign C with hDdef
  have hDlen : D.length = fixes.length := by
    rw [hDdef, length_reassign, hClen]
  have hDlabel : D.map ARow.label = List.replicate fixes.length Label.steady := by
    rw [hDdef, reassign_map_label]; exact hClabel
  have hDid : D.map ARow.id = List.replicate fixes.length 1 := by
    rw [hDdef, reassign_map_id, hClabel, rleIds_replicate]
  have hDseg : D.map ARow.segDist = List.replicate fixes.length none := by
    rw [hDdef, reassign_map_other ARow.segDist (fun _ _ => rfl)]; exact hCseg
  have hDpace : D.map ARow.pace = List.replicate fixes.length none := by
    rw [hDdef, reassign_map_other ARow.pace (fun _ _ => rfl)]; exact hCpace
  have hDlma : D.map ARow.paceLma = List.replicate fixes.length none := by
    rw [hDdef, reassign_map_other ARow.paceLma (fun _ _ => rfl)]; exact hClma
  have hDdisp : D.map ARow.paceLmaDisp = List.replicate fixes.length none := by
    rw [hDdef, reassign_map_other ARow.paceLmaDisp (fun _ _ => rfl)]; exact hCdisp
  have hDne : D ≠ [] := by
    intro hcontra
    rw [hcontra] at hDlen
    simp at hDlen
    omega
  -- stage E: the low-pace demotion turns the single Steady interval Recovery
  have hE : convert_low_pace_steady_to_recovery pThr D =
      reassign (D.map fun r => { r with label := Label.recovery }) := by
    apply convert_low_missing pThr D hDne
    · rw [hDlen]; exact hDid
    · rw [hDlen]; exact hDlabel
    · rw [hDlen]; exact hDseg
  set E := reassign (D.map fun r => { r with label := Label.recovery }) with hEdef
  have hmapLabel : (D.map fun r => { r with label := Label.recovery }).map
      ARow.label = List.replicate fixes.length Label.recovery := by
    rw [List.map_map]
    apply List.eq_replicate_iff.mpr
    refine ⟨by simp [hDlen], ?_⟩
    intro b hb
    obtain ⟨r, _, rfl⟩ := List.mem_map.mp hb
    rfl
  have hmapPres : ∀ (g : ARow → OQ),
      (∀ r, g { r with label := Label.recovery } = g r) →
      (D.map fun r => { r with label := Label.recovery }).map g = D.map g := by
    intro g hg
    rw [List.map_map]
    exact List.map_congr_left (fun r _ => hg r)
  have hElen : E.length = fixes.length := by
    rw [hEdef, length_reassign]
    simp [hDlen]
  have hElabel : E.map ARow.label = List.replicate fixes.length Label.recovery := by
    rw [hEdef, reassign_map_label]; exact hmapLabel
  have hEid : E.map ARow.id = List.replicate fixes.length 1 := by
    rw [hEdef, reassign_map_id, hmapLabel, rleIds_replicate]
  have hEseg : E.map ARow.segDist = List.replicate fixes.length none := by
    rw [hEdef, reassign_map_other ARow.segDist (fun _ _ => rfl),
      hmapPres ARow.segDist (fun _ => rfl)]
    exact hDseg
  have hEpace : E.map ARow.pace = List.replicate fixes.length none := by
    rw [hEdef, reassign_map_other ARow.pace (fun _ _ => rfl),
      hmapPres ARow.pace (fun _ => rfl)]
    exact hDpace
  have hElma : E.map ARow.paceLma = List.replicate fixes.length none := by
    rw [hEdef, reassign_map_other ARow.paceLma (fun _ _ => rfl),
      hmapPres ARow.paceLma (fun _ => rfl)]
    exact hDlma
  have hEdisp : E.map ARow.paceLmaDisp = List.replicate fixes.length none := by
    rw [hEdef, reassign_map_other ARow.paceLmaDisp (fun _ _ => rfl),
      hmapPres ARow.paceLmaDisp (fun _ => rfl)]
    exact hDdisp
  have hEne : E ≠ [] := by
    intro hcontra
    rw [hcontra] at hElen
    simp at hElen
    omega
  -- stage F: the merge loop stops at once (single interval, no neighbor)
  have hF : merge_short_intervals minT E = E := by
    unfold merge_short_intervals
    apply mergeLoop_of_stepNone
    apply mergeStep_single
    · rw [hElen]; exact hEid
    · exact hEne
  -- assemble: the pipeline output is mark_real_intervals minT E
  have hpipe : analysisRows hav sw lw thr pThr minT fixes =
      mark_real_intervals minT E := by
    unfold analysisRows post_process_intervals
    rw [← hBdef, ← hCdef, hD, hE, hF]
  rw [hpipe]
  refine ⟨?_, ?_, ?_, ?_, ?_, ?_, ?_⟩
  · rw [mark_real_length, hElen]
  · rw [mark_real_map_pres ARow.segDist (fun _ _ => rfl) (fun _ _ => rfl)]; exact hEseg
  · rw [mark_real_map_pres ARow.pace (fun _ _ => rfl) (fun _ _ => rfl)]; exact hEpace
  · rw [mark_real_map_pres ARow.paceLma (fun _ _ => rfl) (fun _ _ => rfl)]; exact hElma
  · rw [mark_real_map_pres ARow.paceLmaDisp (fun _ _ => rfl) (fun _ _ => rfl)]; exact hEdisp
  · rw [mark_real_map_pres ARow.label (fun _ _ => rfl) (fun _ _ => rfl)]; exact hElabel
  · rw [mark_real_map_id, hElabel, rleIds_replicate]

lemma length_insertNat (n : ℕ) (l : List ℕ) :
    (insertNat n l).length = l.length + 1 := by
  induction l with
  | nil => rfl
  | cons m t ih => by_cases h : n ≤ m <;> simp [insertNat, h, ih]

lemma length_sortNat (l : List ℕ) : (sortNat l).length = l.length := by
  induction l with
  | nil => rfl
  | cons n t ih => simp [sortNat, length_insertNat, ih]

lemma gkeys_ne_nil (rows : List ARow) (hne : rows ≠ []) : gkeys rows ≠ [] := by
  intro hcontra
  have h1 : sortNat (rows.map ARow.id) = [] :=
    (List.dedup_eq_nil _).mp hcontra
  have h2 : (sortNat (rows.map ARow.id)).length = rows.length := by
    rw [length_sortNat, List.length_map]
  rw [h1] at h2
  exact hne (List.length_eq_zero.mp h2.symm)

lemma summarize_ok (rows : List ARow) (hne : rows ≠ []) :
    ∃ recs, summarize_intervals rows = Except.ok recs := by
  unfold summarize_intervals
  have hk := gkeys_ne_nil rows hne
  have hemp : ((gkeys rows).map (summaryRecord rows)).isEmpty = false := by
    cases hgk : gkeys rows with
    | nil => exact absurd hgk hk
    | cons a t => simp
  simp [hemp]

lemma extractRows_length (raws : List RawFix) :
    (extractRows raws).length = raws.length := by
  unfold extractRows
  split
  · simp
  · split <;> simp

lemma extractRows_missing (raws : List RawFix)
    (h : ∀ r ∈ raws, r.lat = none ∨ r.lon = none) :
    ∀ f ∈ extractRows raws, f.lat = none ∨ f.lon = none := by
  intro f hf
  unfold extractRows at hf
  split at hf
  · simp at hf
  · split at hf
    · obtain ⟨r, hr, rfl⟩ := List.mem_map.mp hf
      exact h r hr
    · obtain ⟨r, hr, rfl⟩ := List.mem_map.mp hf
      exact h r hr

lemma segDistCol_eq_rawDistCol (hav : ℚ → ℚ → ℚ → ℚ → ℚ)
    (fixes : List FixRow) : segDistCol hav fixes = rawDistCol hav fixes := by
  unfold segDistCol rawDistCol
  apply List.map_congr_left
  intro i hi
  have hi2 := List.mem_range.mp hi
  rw [getD_range_map _ _ _ hi2]
  by_cases h0 : i = 0
  · subst h0
    simp [segDistAt]
  · rw [if_neg h0]
    cases h1 : (fixes.map FixRow.lat).getD (i - 1) none <;>
      cases h2 : (fixes.map FixRow.lon).getD (i - 1) none <;>
      cases h3 : (fixes.map FixRow.lat).getD i none <;>
      cases h4 : (fixes.map FixRow.lon).getD i none <;>
      simp [segDistAt, h0, h1, h2, h3, h4]

lemma segDistCol_getD_cur (hav : ℚ → ℚ → ℚ → ℚ → ℚ) (fixes : List FixRow)
    (i : ℕ) (hi : i < fixes.length)
    (hmiss : (fixes.get ⟨i, hi⟩).lat = none ∨ (fixes.get ⟨i, hi⟩).lon = none) :
    (segDistCol hav fixes).getD i none = none := by
  unfold segDistCol
  rw [getD_range_map _ _ _ (by simpa using hi)]
  rcases hmiss with hc | hc
  · unfold segDistAt
    rw [getD_map_get FixRow.lat fixes i hi, hc]
    simp
  · unfold segDistAt
    rw [getD_map_get FixRow.lon fixes i hi, hc]
    simp

lemma segDistCol_getD_next (hav : ℚ → ℚ → ℚ → ℚ → ℚ) (fixes : List FixRow)
    (i : ℕ) (hi : i < fixes.length) (hnext : i + 1 < fixes.length)
    (hmiss : (fixes.get ⟨i, hi⟩).lat = none ∨ (fixes.get ⟨i, hi⟩).lon = none) :
    (segDistCol hav fixes).getD (i + 1) none = none := by
  unfold segDistCol
  rw [getD_range_map _ _ _ (by simpa using hnext)]
  have hne : ¬(i + 1 = 0) := by omega
  rcases hmiss with hc | hc
  · unfold segDistAt
    rw [if_neg hne, show i + 1 - 1 = i from rfl,
      getD_map_get FixRow.lat fixes i hi, hc]
    simp
  · unfold segDistAt
    rw [if_neg hne, show i + 1 - 1 = i from rfl,
      getD_map_get FixRow.lon fixes i hi, hc]
    simp

lemma run_analysis_all_missing_ok (hav : ℚ → ℚ → ℚ → ℚ → ℚ)
    (params : String → Option PyVal) (raws : List RawFix) (hne : raws ≠ [])
    (h : ∀ r ∈ raws, r.lat = none ∨ r.lon = none) :
    (run_analysis hav params raws).isOk = true := by
  have hext : extract_gpx_data raws = Except.ok (extractRows raws) := by
    unfold extract_gpx_data
    rw [if_neg (by simpa [List.isEmpty_iff] using hne)]
  have hfne : extractRows raws ≠ [] := by
    intro hc
    have hlen := extractRows_length raws
    rw [hc] at hlen
    exact hne (List.length_eq_zero.mp hlen.symm)
  have hrows := analysisRows_all_missing hav
    (analysisConfig params).smoothWin.asNat (analysisConfig params).lmaWin.asNat
    (analysisConfig params).paceDifferenceThreshold.asQ
    (analysisConfig params).minIntervalPacePerKm.asQ
    (analysisConfig params).minTimeSec.asQ
    (extractRows raws) hfne (extractRows_missing raws h)
  have hrne : analysisRows hav
      (analysisConfig params).smoothWin.asNat (analysisConfig params).lmaWin.asNat
      (analysisConfig params).paceDifferenceThreshold.asQ
      (analysisConfig params).minIntervalPacePerKm.asQ
      (analysisConfig params).minTimeSec.asQ (extractRows raws) ≠ [] := by
    intro hc
    have hlen := hrows.1
    rw [hc] at hlen
    have : (extractRows raws).length = 0 := by simpa using hlen.symm
    exact hfne (List.length_eq_zero.mp this)
  obtain ⟨recs, hrecs⟩ := summarize_ok _ hrne
  simp only [run_analysis, hext, hrecs]
  rfl

lemma string_mk_data (s : String) : String.mk s.data = s := by
  cases s
  rfl

lemma splitDotAux_no_dot (l : List Char) (hnd : '.' ∉ l) :
    ∀ acc, splitDotAux acc l = [acc.reverse ++ l] := by
  induction l with
  | nil => intro acc; simp [splitDotAux]
  | cons c t ih =>
    intro acc
    have hc : ¬c = '.' := fun hc => hnd (hc ▸ List.mem_cons_self c t)
    have hnt : '.' ∉ t := fun hm => hnd (List.mem_cons_of_mem c hm)
    simp [splitDotAux, hc, ih hnt]

lemma splitDotAux_append (b : List Char) :
    ∀ (a acc : List Char), '.' ∉ a →
      splitDotAux acc (a ++ '.' :: b) = (acc.reverse ++ a) :: splitDotAux [] b := by
  intro a
  induction a with
  | nil => intro acc _; simp [splitDotAux]
  | cons c t ih =>
    intro acc hnd
    have hc : ¬c = '.' := fun hc => hnd (hc ▸ List.mem_cons_self c t)
    have hnt : '.' ∉ t := fun hm => hnd (List.mem_cons_of_mem c hm)
    simp [splitDotAux, hc, ih (c :: acc) hnt]

lemma splitDot_append (a b : List Char) (ha : '.' ∉ a) (hb : '.' ∉ b) :
    splitDot (a ++ '.' :: b) = [a, b] := by
  unfold splitDot
  rw [splitDotAux_append b a [] ha, splitDotAux_no_dot b hb []]
  simp

-- --- Lemmas for the fuse counterexample ---

lemma lab_flip (m : ℕ) : lab (m + 1) ≠ lab m := by
  unfold lab
  rcases Nat.even_or_odd m with h | h
  · have h1 : m % 2 = 0 := Nat.even_iff.mp h
    have h2 : (m + 1) % 2 = 1 := by omega
    simp [h1, h2]
  · have h1 : m % 2 = 1 := Nat.odd_iff.mp h
    have h2 : (m + 1) % 2 = 0 := by omega
    simp [h1, h2]

lemma lab_add_two (m : ℕ) : lab (m + 2) = lab m := by
  unfold lab
  have : (m + 2) % 2 = m % 2 := by omega
  rw [this]

lemma insertNat_cons_of_le (n m : ℕ) (t : List ℕ) (h : n ≤ m) :
    insertNat n (m :: t) = n :: m :: t := by
  simp [insertNat, h]

lemma sortNat_eq_self : ∀ (l : List ℕ), l.Pairwise (· ≤ ·) → sortNat l = l := by
  intro l
  induction l with
  | nil => intro _; rfl
  | cons a t ih =>
    intro hp
    rw [List.pairwise_cons] at hp
    have ht := ih hp.2
    unfold sortNat
    rw [ht]
    cases t with
    | nil => rfl
    | cons b t2 => exact insertNat_cons_of_le a b t2 (hp.1 b (List.mem_cons_self b t2))

lemma dedup_replicate (k m : ℕ) (h : 0 < m) :
    (List.replicate m k).dedup = [k] := by
  induction m with
  | zero => omega
  | succ q ih =>
    cases q with
    | zero => rfl
    | succ r =>
      have hmem : k ∈ List.replicate (r + 1) k := by simp [List.mem_replicate]
      calc (List.replicate (r + 1 + 1) k).dedup
          = (k :: List.replicate (r + 1) k).dedup := rfl
        _ = (List.replicate (r + 1) k).dedup := List.dedup_cons_of_mem hmem
        _ = [k] := ih (by omega)

lemma dedup_append_replicate (l1 : List ℕ) (k m : ℕ) (hm : 0 < m)
    (hnd : l1.Nodup) (hk : k ∉ l1) :
    (l1 ++ List.replicate m k).dedup = l1 ++ [k] := by
  induction l1 with
  | nil => simpa using dedup_replicate k m hm
  | cons a t ih =>
    have hat := List.nodup_cons.mp hnd
    have hk2 : k ∉ t := fun hmem => hk (List.mem_cons_of_mem a hmem)
    have hka : ¬a = k := fun hc => hk (hc ▸ List.mem_cons_self a t)
    have hnotin : a ∉ t ++ List.replicate m k := by
      intro hmem
      rcases List.mem_append.mp hmem with h1 | h1
      · exact hat.1 h1
      · exact hka (List.eq_of_mem_replicate h1)
    calc ((a :: t) ++ List.replicate m k).dedup
        = (a :: (t ++ List.replicate m k)).dedup := rfl
      _ = a :: (t ++ List.replicate m k).dedup := List.dedup_cons_of_not_mem hnotin
      _ = a :: (t ++ [k]) := by rw [ih hat.2 hk2]
      _ = (a :: t) ++ [k] := rfl

lemma filter_range_single (m i : ℕ) (hi : i < m) :
    (List.range m).filter (fun j => decide (j = i)) = [i] := by
  induction m with
  | zero => omega
  | succ q ih =>
    rw [List.range_succ, List.filter_append]
    by_cases hq : i < q
    · rw [ih hq]
      have : (List.filter (fun j => decide (j = i)) [q]) = [] := by
        have hqi : ¬q = i := by omega
        simp [List.filter, hqi]
      rw [this, List.append_nil]
    · have hiq : i = q := by omega
      subst hiq
      have h1 : (List.range i).filter (fun j => decide (j = i)) = [] := by
        apply List.filter_eq_nil.mpr
        intro j hj
        have := List.mem_range.mp hj
        simp only [decide_eq_true_eq]
        omega
      rw [h1]
      simp [List.filter]

lemma filter_range_ge (m a : ℕ) (ha : a ≤ m) :
    (List.range m).filter (fun j => decide (a ≤ j)) = List.range' a (m - a) := by
  induction m with
  | zero =>
    have : a = 0 := by omega
    subst this
    rfl
  | succ q ih =>
    rw [List.range_succ, List.filter_append]
    by_cases haq : a ≤ q
    · rw [ih haq]
      have h1 : (List.filter (fun j => decide (a ≤ j)) [q]) = [q] := by
        simp [List.filter, haq]
      rw [h1]
      have h2 : q + 1 - a = (q - a) + 1 := by omega
      rw [h2, List.range'_concat]
      congr 2
      omega
    · have haq2 : a = q + 1 := by omega
      subst haq2
      have h1 : (List.range q).filter (fun j => decide (q + 1 ≤ j)) = [] := by
        apply List.filter_eq_nil.mpr
        intro j hj
        have := List.mem_range.mp hj
        simp only [decide_eq_true_eq]
        omega
      rw [h1]
      simp [List.filter]

lemma fuse_ids (p : ℕ) (hp : p ≤ 101) :
    (fuseState p).map ARow.id =
      ((List.range (101 - p)).map (· + 1)) ++ List.replicate (p + 1) (102 - p) := by
  unfold fuseState
  rw [List.map_map]
  have hsplit : (102 : ℕ) = (101 - p) + (p + 1) := by omega
  rw [hsplit, List.range_add, List.map_append]
  congr 1
  · apply List.map_congr_left
    intro j hj
    have hjlt := List.mem_range.mp hj
    simp [Function.comp, fuseRow, hjlt, mkMergeRow]
  · rw [List.map_map]
    apply List.eq_replicate_iff.mpr
    refine ⟨by simp, ?_⟩
    intro b hb
    obtain ⟨j, hj, rfl⟩ := List.mem_map.mp hb
    have hge : ¬((101 - p) + j < 101 - p) := by omega
    simp [Function.comp, fuseRow, hge, mkMergeRow]
    omega

lemma fuse_ids_pairwise (p : ℕ) (hp : p ≤ 101) :
    (((List.range (101 - p)).map (· + 1)) ++
      List.replicate (p + 1) (102 - p)).Pairwise (· ≤ ·) := by
  rw [List.pairwise_append]
  refine ⟨?_, ?_, ?_⟩
  · have h1 : (List.range (101 - p)).Pairwise (· < ·) := List.pairwise_lt_range _
    exact h1.map _ (fun a b hab => by omega)
  · exact (List.pairwise_replicate).mpr (Or.inr le_rfl)
  · intro a ha b hb
    obtain ⟨j, hj, rfl⟩ := List.mem_map.mp ha
    have hjlt := List.mem_range.mp hj
    have hbeq := List.eq_of_mem_replicate hb
    omega

lemma fuse_gkeys (p : ℕ) (hp : p ≤ 101) :
    gkeys (fuseState p) = (List.range (102 - p)).map (· + 1) := by
  unfold gkeys
  rw [fuse_ids p hp, sortNat_eq_self _ (fuse_ids_pairwise p hp)]
  rw [dedup_append_replicate _ _ _ (by omega) ?nodup ?notmem]
  case nodup =>
    exact (List.nodup_range _).map (fun a b => by omega)
  case notmem =>
    intro hmem
    obtain ⟨j, hj, heq⟩ := List.mem_map.mp hmem
    have := List.mem_range.mp hj
    omega
  have h2 : (102 : ℕ) - p = (101 - p) + 1 := by omega
  rw [h2, List.range_succ, List.map_append]
  congr 1

lemma fuse_grp_short (p j0 : ℕ) (hj : j0 < 101 - p) :
    grp (fuseState p) (j0 + 1) = [fuseRow p j0] := by
  unfold grp fuseState
  rw [List.filter_map]
  have hcong : (List.range 102).filter ((fun r => decide (r.id = j0 + 1)) ∘ fuseRow p) =
      (List.range 102).filter (fun j => decide (j = j0)) := by
    apply List.filter_congr
    intro j hj2
    have hjlt := List.mem_range.mp hj2
    by_cases hc : j < 101 - p
    · simp [Function.comp, fuseRow, hc, mkMergeRow]
    · have h1 : ¬(102 - p = j0 + 1) := by omega
      have h2 : ¬(j = j0) := by omega
      simp [Function.comp, fuseRow, hc, mkMergeRow, h1, h2]
  rw [hcong, filter_range_single _ _ (by omega)]
  rfl

lemma fuse_grp_last (p : ℕ) (hp : p ≤ 101) :
    grp (fuseState p) (102 - p) = (List.range' (101 - p) (p + 1)).map (fuseRow p) := by
  unfold grp fuseState
  rw [List.filter_map]
  have hcong : (List.range 102).filter ((fun r => decide (r.id = 102 - p)) ∘ fuseRow p) =
      (List.range 102).filter (fun j => decide (101 - p ≤ j)) := by
    apply List.filter_congr
    intro j hj2
    have hjlt := List.mem_range.mp hj2
    by_cases hc : j < 101 - p
    · have h1 : ¬(j + 1 = 102 - p) := by omega
      have h2 : ¬(101 - p ≤ j) := by omega
      simp [Function.comp, fuseRow, hc, mkMergeRow, h1, h2]
    · have h2 : 101 - p ≤ j := by omega
      simp [Function.comp, fuseRow, hc, mkMergeRow, h2]
  rw [hcong, filter_range_ge _ _ (by omega),
    show (102 : ℕ) - (101 - p) = p + 1 from by omega]

lemma fuse_grp_last_time (p : ℕ) (hp : p ≤ 101) :
    gsum ((grp (fuseState p) (102 - p)).map ARow.segTime) = 10 * (p : ℚ) + 1000 := by
  rw [fuse_grp_last p hp, List.map_map]
  have hsplit : List.range' (101 - p) (p + 1) = List.range' (101 - p) p ++ [101] := by
    rw [List.range'_concat]
    congr 2
    omega
  rw [hsplit, List.map_append]
  have h1 : (List.range' (101 - p) p).map (ARow.segTime ∘ fuseRow p) =
      List.replicate p (some (10 : ℚ)) := by
    apply List.eq_replicate_iff.mpr
    refine ⟨by simp, ?_⟩
    intro b hb
    obtain ⟨j, hj, rfl⟩ := List.mem_map.mp hb
    have hmem := List.mem_range'_1.mp hj
    have hge : ¬(j < 101 - p) := by omega
    have hne : ¬(j = 101) := by omega
    simp [Function.comp, fuseRow, hge, hne, mkMergeRow]
  have h2 : ([101] : List ℕ).map (ARow.segTime ∘ fuseRow p) = [some (1000 : ℚ)] := by
    have hge : ¬((101 : ℕ) < 101 - p) := by omega
    simp [Function.comp, fuseRow, hge, mkMergeRow]
  rw [h1, h2]
  unfold gsum
  rw [List.filterMap_append]
  have h3 : (List.replicate p (some (10 : ℚ))).filterMap id = List.replicate p 10 := by
    simp [List.filterMap_replicate]
  rw [h3]
  simp [List.sum_replicate, nsmul_eq_mul]
  ring

lemma fuse_summary_eq (p : ℕ) (hp : p ≤ 101) :
    summarizeGroups (fuseState p) = fuseSummary p := by
  unfold summarizeGroups fuseSummary
  rw [fuse_gkeys p hp]
  have h2 : (102 : ℕ) - p = (101 - p) + 1 := by omega
  rw [h2, List.range_succ, List.map_append, List.map_append]
  congr 1
  · rw [List.map_map]
    apply List.map_congr_left
    intro j hj
    have hjlt := List.mem_range.mp hj
    have hgrp := fuse_grp_short p j hjlt
    simp only [Function.comp]
    rw [hgrp]
    have hlab : firstLabel [fuseRow p j] = lab (j + p) := by
      simp [firstLabel, fuseRow, hjlt, mkMergeRow]
    have htime : gsum ([fuseRow p j].map ARow.segTime) = 10 := by
      simp [gsum, fuseRow, hjlt, mkMergeRow]
    rw [hlab, htime]
  · have hkey : (101 - p) + 1 = 102 - p := by omega
    simp only [List.map_map, List.map_cons, List.map_nil, Function.comp]
    rw [hkey]
    rw [fuse_grp_last_time p hp]
    have hfl : firstLabel (grp (fuseState p) (102 - p)) = Label.recovery := by
      rw [fuse_grp_last p hp]
      have hcons : List.range' (101 - p) (p + 1) = (101 - p) :: List.range' (101 - p + 1) p := by
        rw [List.range'_succ]
      rw [hcons]
      have hge : ¬(101 - p < 101 - p) := by omega
      simp [firstLabel, fuseRow, hge, mkMergeRow]
    rw [hfl]

lemma fuse_shorts_eq (p : ℕ) (hp : p ≤ 101) :
    shortOnes 50 (fuseState p) =
      (List.range (101 - p)).map fun j => (⟨j + 1, 10, lab (j + p)⟩ : ISum) := by
  unfold shortOnes
  rw [fuse_summary_eq p hp]
  unfold fuseSummary
  rw [List.filter_append]
  have h1 : ((List.range (101 - p)).map fun j => (⟨j + 1, 10, lab (j + p)⟩ : ISum)).filter
      (fun s => decide (s.time < 50)) =
      (List.range (101 - p)).map fun j => (⟨j + 1, 10, lab (j + p)⟩ : ISum) := by
    apply List.filter_eq_self.mpr
    intro s hs
    obtain ⟨j, hj, rfl⟩ := List.mem_map.mp hs
    norm_num
  have h2 : ([(⟨102 - p, 10 * (p : ℚ) + 1000, Label.recovery⟩ : ISum)]).filter
      (fun s => decide (s.time < 50)) = [] := by
    have hnlt : ¬((10 : ℚ) * (p : ℚ) + 1000 < 50) := by
      have hple : (0 : ℚ) ≤ (p : ℚ) := Nat.cast_nonneg p
      nlinarith
    simp [List.filter, hnlt]
  rw [h1, h2, List.append_nil]

lemma find?_map_range' (g : ℕ → ISum) (hg : ∀ j, (g j).id = j + 1) :
    ∀ (m s k : ℕ), s < k → k ≤ s + m →
      ((List.range' s m).map g).find? (fun x => x.id = k) = some (g (k - 1)) := by
  intro m
  induction m with
  | zero => intro s k h1 h2; omega
  | succ q ih =>
    intro s k h1 h2
    rw [List.range'_succ, List.map_cons, List.find?_cons]
    by_cases hs : s + 1 = k
    · have hd : decide ((g s).id = k) = true := by simp [hg s, hs]
      rw [hd]
      have hsk : s = k - 1 := by omega
      rw [hsk]
    · have hd : decide ((g s).id = k) = false := by
        simp [hg s]
        omega
      rw [hd]
      exact ih (s + 1) k (by omega) (by omega)

lemma find?_fuse_shorts (p k : ℕ) (h1 : 0 < k) (h2 : k ≤ 101 - p) :
    ((List.range (101 - p)).map fun j => (⟨j + 1, 10, lab (j + p)⟩ : ISum)).find?
      (fun x => x.id = k) = some ⟨k, 10, lab (k - 1 + p)⟩ := by
  rw [List.range_eq_range']
  rw [find?_map_range' _ (fun j => rfl) (101 - p) 0 k (by omega) (by omega)]
  rw [show k - 1 + 1 = k from by omega]

lemma find?_fuse_shorts_none (p k : ℕ) (hk : 101 - p < k) :
    ((List.range (101 - p)).map fun j => (⟨j + 1, 10, lab (j + p)⟩ : ISum)).find?
      (fun x => x.id = k) = none := by
  rw [List.find?_eq_none]
  intro x hx
  obtain ⟨j, hj, rfl⟩ := List.mem_map.mp hx
  have := List.mem_range.mp hj
  simp only [decide_eq_true_eq]
  omega

lemma fuse_lookupType_small (p k : ℕ) (h1 : 0 < k) (h2 : k ≤ 101 - p) :
    lookupType (fuseSummary p) k = lab (k - 1 + p) := by
  unfold lookupType fuseSummary
  rw [List.find?_append, find?_fuse_shorts p k h1 h2]
  rfl

lemma fuse_lookupType_last (p : ℕ) (hp : p ≤ 100) :
    lookupType (fuseSummary p) (102 - p) = Label.recovery := by
  unfold lookupType fuseSummary
  rw [List.find?_append, find?_fuse_shorts_none p (102 - p) (by omega)]
  simp [List.find?]

lemma indexOf_map_range' :
    ∀ (m s k : ℕ), s < k → k ≤ s + m →
      (((List.range' s m).map (· + 1)).indexOf k) = k - 1 - s := by
  intro m
  induction m with
  | zero => intro s k h1 h2; omega
  | succ q ih =>
    intro s k h1 h2
    rw [List.range'_succ, List.map_cons]
    by_cases hs : s + 1 = k
    · rw [hs, List.indexOf_cons_self]
      omega
    · rw [List.indexOf_cons_ne _ (by omega), ih (s + 1) k (by omega) (by omega)]
      omega

lemma fuse_keys_getD (p i : ℕ) (hi : i < 102 - p) :
    ((List.range (102 - p)).map (· + 1)).getD i 0 = i + 1 :=
  getD_range_map _ _ _ hi _

lemma fuse_keys_get? (p i : ℕ) (hi : i < 102 - p) :
    ((List.range (102 - p)).map (· + 1)).get? i = some (i + 1) := by
  simp [List.get?_eq_getElem?, List.getElem?_map, List.getElem?_range, hi]

lemma fuse_keys_get?_none (p i : ℕ) (hi : 102 - p ≤ i) :
    ((List.range (102 - p)).map (· + 1)).get? i = none := by
  rw [List.get?_eq_getElem?, List.getElem?_eq_none]
  simpa using hi

lemma fuse_summary_ids (p : ℕ) (hp : p ≤ 101) :
    (fuseSummary p).map ISum.id = (List.range (102 - p)).map (· + 1) := by
  unfold fuseSummary
  rw [List.map_append, List.map_map]
  have h2 : (102 : ℕ) - p = (101 - p) + 1 := by omega
  rw [h2, List.range_succ, List.map_append]
  congr 1

lemma chooseTarget_fuse (p j0 : ℕ) (hp : p ≤ 100) (hj : j0 < 101 - p) :
    chooseTarget (fuseSummary p) ⟨j0 + 1, 10, lab (j0 + p)⟩ =
      some (if j0 = 0 then 2 else j0) := by
  simp only [chooseTarget]
  rw [fuse_summary_ids p (by omega)]
  have hidx : ((List.range (102 - p)).map (· + 1)).indexOf
      ((⟨j0 + 1, 10, lab (j0 + p)⟩ : ISum).id) = j0 := by
    show ((List.range (102 - p)).map (· + 1)).indexOf (j0 + 1) = j0
    rw [List.range_eq_range',
      indexOf_map_range' (102 - p) 0 (j0 + 1) (by omega) (by omega)]
    omega
  rw [hidx]
  have hnext : ((List.range (102 - p)).map (· + 1)).get? (j0 + 1) =
      some (j0 + 2) := by
    rw [fuse_keys_get? p (j0 + 1) (by omega)]
  by_cases h0 : j0 = 0
  · subst h0
    rw [hnext]
    have ht2 : ¬(lookupType (fuseSummary p) 2 = (⟨0 + 1, 10, lab (0 + p)⟩ : ISum).type) := by
      show ¬(lookupType (fuseSummary p) 2 = lab (0 + p))
      by_cases hc : 2 ≤ 101 - p
      · rw [fuse_lookupType_small p 2 (by omega) hc]
        have : (2 : ℕ) - 1 + p = (0 + p) + 1 := by omega
        rw [this]
        exact lab_flip (0 + p)
      · have hpeq : p = 100 := by omega
        subst hpeq
        rw [show (2 : ℕ) = 102 - 100 from by omega,
          fuse_lookupType_last 100 (by omega)]
        decide
    have ht2x : ¬(lookupType (fuseSummary p) 2 = lab p) := by simpa using ht2
    simp [ht2x]
  · have hprev : ((List.range (102 - p)).map (· + 1)).getD (j0 - 1) 0 = j0 := by
      rw [fuse_keys_getD p (j0 - 1) (by omega)]
      omega
    rw [hprev]
    have ht1 : ¬(lookupType (fuseSummary p) j0 = (⟨j0 + 1, 10, lab (j0 + p)⟩ : ISum).type) := by
      show ¬(lookupType (fuseSummary p) j0 = lab (j0 + p))
      rw [fuse_lookupType_small p j0 (by omega) (by omega)]
      intro hc
      have heq : j0 - 1 + p + 1 = j0 + p := by omega
      exact lab_flip (j0 - 1 + p) (heq ▸ hc.symm)
    rw [hnext]
    have ht2 : ¬(lookupType (fuseSummary p) (j0 + 2) = (⟨j0 + 1, 10, lab (j0 + p)⟩ : ISum).type) := by
      show ¬(lookupType (fuseSummary p) (j0 + 2) = lab (j0 + p))
      by_cases hc : j0 + 2 ≤ 101 - p
      · rw [fuse_lookupType_small p (j0 + 2) (by omega) hc]
        have : j0 + 2 - 1 + p = (j0 + p) + 1 := by omega
        rw [this]
        exact lab_flip (j0 + p)
      · have heq2 : j0 + 2 = 102 - p := by omega
        rw [heq2, fuse_lookupType_last p hp]
        have heq3 : j0 + p = 100 := by omega
        rw [heq3]
        decide
    have h0pos : 0 < j0 := by omega
    simp [h0pos, ht1, ht2, h0]

lemma fuse_relabel (p j : ℕ) (hp : p ≤ 100) :
    passRelabel (fuseSummary p)
      ((List.range (101 - p)).map fun j2 => (⟨j2 + 1, 10, lab (j2 + p)⟩ : ISum))
      (fuseRow p j) = fuseRowMerged p j := by
  by_cases hj : j < 101 - p
  · have hfind : ((List.range (101 - p)).map fun j2 =>
        (⟨j2 + 1, 10, lab (j2 + p)⟩ : ISum)).find?
        (fun x => x.id = j + 1) = some ⟨j + 1, 10, lab (j + p)⟩ := by
      rw [find?_fuse_shorts p (j + 1) (by omega) (by omega)]
      norm_num
    have hct := chooseTarget_fuse p j hp hj
    have hrow : fuseRow p j = mkMergeRow 10 (lab (j + p)) (j + 1) := by
      simp [fuseRow, hj]
    have hmerged : fuseRowMerged p j = mkMergeRow 10 (lab (j + p + 1)) (j + 1) := by
      simp [fuseRowMerged, hj]
    have hlook : lookupType (fuseSummary p) (if j = 0 then 2 else j) = lab (j + p + 1) := by
      by_cases h0 : j = 0
      · subst h0
        rw [if_pos rfl]
        by_cases hc : 2 ≤ 101 - p
        · rw [fuse_lookupType_small p 2 (by omega) hc]
          congr 1
          omega
        · have hpeq : p = 100 := by omega
          subst hpeq
          rw [show (2 : ℕ) = 102 - 100 from by omega, fuse_lookupType_last 100 (by omega)]
          decide
      · rw [if_neg h0, fuse_lookupType_small p j (by omega) (by omega)]
        have he : j - 1 + p + 2 = j + p + 1 := by omega
        rw [← he]
        exact (lab_add_two (j - 1 + p)).symm
    rw [hrow, hmerged]
    simp [passRelabel, mkMergeRow, hfind, hct, hlook]
  · have hfind := find?_fuse_shorts_none p (102 - p) (by omega)
    have hrow : fuseRow p j =
        mkMergeRow (if j = 101 then 1000 else 10) Label.recovery (102 - p) := by
      simp [fuseRow, hj]
    have hmerged : fuseRowMerged p j = fuseRow p j := by
      simp [fuseRowMerged, hj]
    rw [hmerged, hrow]
    simp [passRelabel, mkMergeRow, hfind]

lemma nadj_take_one (l : List Label) : nadj (l.take 1) = 0 := by
  cases l with
  | nil => rfl
  | cons a t => rfl

lemma fuse_nadj (p : ℕ) (hp : p ≤ 100) :
    ∀ i, i < 102 →
      nadj (((List.range 102).map fun j =>
        if j < 101 - p then lab (j + p + 1) else Label.recovery).take (i + 1)) =
        min i (100 - p) := by
  have hlen : ((List.range 102).map fun j =>
      if j < 101 - p then lab (j + p + 1) else Label.recovery).length = 102 := by
    simp
  have hget : ∀ j, j < 102 →
      ((List.range 102).map fun j2 =>
        if j2 < 101 - p then lab (j2 + p + 1) else Label.recovery).get? j =
        some (if j < 101 - p then lab (j + p + 1) else Label.recovery) := by
    intro j hj
    simp [List.get?_eq_getElem?, List.getElem?_map, List.getElem?_range, hj]
  intro i
  induction i with
  | zero =>
    intro _
    rw [nadj_take_one]
    omega
  | succ m ih =>
    intro h
    have hm : m < 102 := by omega
    rw [show m + 1 + 1 = m + 2 from rfl, nadj_take_succ _ m (by rw [hlen]; omega)]
    rw [ih hm, hget (m + 1) (by omega), hget m (by omega)]
    by_cases h1 : m + 1 < 101 - p
    · have h2 : m < 101 - p := by omega
      rw [if_pos h1, if_pos h2]
      have hne : ¬(lab (m + 1 + p + 1) = lab (m + p + 1)) := by
        have he : m + p + 1 + 1 = m + 1 + p + 1 := by omega
        rw [← he]
        exact lab_flip (m + p + 1)
      rw [if_neg (by simpa using hne)]
      omega
    · by_cases h2 : m < 101 - p
      · rw [if_neg h1, if_pos h2]
        have heq : lab (m + p + 1) = Label.recovery := by
          have he : m + p + 1 = 101 := by omega
          rw [he]; decide
        rw [heq, if_pos rfl]
        omega
      · rw [if_neg h1, if_neg h2, if_pos rfl]
        omega

lemma fuse_rleIds (p : ℕ) (hp : p ≤ 100) :
    rleIds ((List.range 102).map fun j =>
        if j < 101 - p then lab (j + p + 1) else Label.recovery) =
      (List.range 102).map fun j => if j < 100 - p then j + 1 else 101 - p := by
  apply List.ext_get?
  intro i
  by_cases hi : i < 102
  · rw [rleIds_get? _ i (by simp [hi]), fuse_nadj p hp i hi]
    rw [show ((List.range 102).map fun j =>
        if j < 100 - p then j + 1 else 101 - p).get? i =
        some (if i < 100 - p then i + 1 else 101 - p) from by
      simp [List.get?_eq_getElem?, List.getElem?_map, List.getElem?_range, hi]]
    congr 1
    by_cases h1 : i < 100 - p
    · rw [if_pos h1]; omega
    · rw [if_neg h1]; omega
  · rw [List.get?_eq_getElem?, List.get?_eq_getElem?,
      List.getElem?_eq_none (by rw [length_rleIds]; simp; omega),
      List.getElem?_eq_none (by simp; omega)]

lemma zipWith_self_eq_map {α β : Type} (F : α → α → β) :
    ∀ l : List α, List.zipWith F l l = l.map fun x => F x x := by
  intro l
  induction l with
  | nil => rfl
  | cons a t ih => simp [List.zipWith, ih]

lemma mkMergeRow_setId (t : ℚ) (l : Label) (i k : ℕ) :
    { mkMergeRow t l i with id := k } = mkMergeRow t l k := rfl

lemma fuse_reassign (p : ℕ) (hp : p ≤ 100) :
    reassign ((List.range 102).map (fuseRowMerged p)) = fuseState (p + 1) := by
  unfold reassign
  have hlab : ((List.range 102).map (fuseRowMerged p)).map ARow.label =
      (List.range 102).map fun j =>
        if j < 101 - p then lab (j + p + 1) else Label.recovery := by
    rw [List.map_map]
    apply List.map_congr_left
    intro j _
    by_cases hj : j < 101 - p
    · simp [Function.comp, fuseRowMerged, hj, mkMergeRow]
    · simp [Function.comp, fuseRowMerged, fuseRow, hj, mkMergeRow]
  rw [hlab, fuse_rleIds p hp]
  rw [List.zipWith_map_left, List.zipWith_map_right, zipWith_self_eq_map]
  unfold fuseState
  apply List.map_congr_left
  intro j hj
  have hj102 : j < 102 := List.mem_range.mp hj
  by_cases h1 : j < 100 - p
  · have h2 : j < 101 - p := by omega
    have h3 : j < 101 - (p + 1) := by omega
    rw [if_pos h1]
    rw [show fuseRowMerged p j = mkMergeRow 10 (lab (j + p + 1)) (j + 1) from by
      simp [fuseRowMerged, h2]]
    rw [mkMergeRow_setId]
    rw [show fuseRow (p + 1) j = mkMergeRow 10 (lab (j + (p + 1))) (j + 1) from by
      unfold fuseRow
      rw [if_pos h3]]
    rw [show j + (p + 1) = j + p + 1 from by omega]
  · by_cases h2 : j < 101 - p
    · have h3 : ¬j < 101 - (p + 1) := by omega
      rw [if_neg h1]
      rw [show fuseRowMerged p j = mkMergeRow 10 (lab (j + p + 1)) (j + 1) from by
        simp [fuseRowMerged, h2]]
      rw [mkMergeRow_setId]
      have hlab101 : lab (j + p + 1) = Label.recovery := by
        rw [show j + p + 1 = 101 from by omega]
        decide
      rw [hlab101]
      rw [show fuseRow (p + 1) j =
          mkMergeRow (if j = 101 then 1000 else 10) Label.recovery (102 - (p + 1)) from by
        unfold fuseRow
        rw [if_neg h3]]
      rw [show (if j = 101 then (1000 : ℚ) else 10) = 10 from by rw [if_neg (by omega)]]
      rw [show 102 - (p + 1) = 101 - p from by omega]
    · have h3 : ¬j < 101 - (p + 1) := by omega
      rw [if_neg h1]
      rw [show fuseRowMerged p j = fuseRow p j from by simp [fuseRowMerged, h2]]
      rw [show fuseRow p j =
          mkMergeRow (if j = 101 then 1000 else 10) Label.recovery (102 - p) from by
        simp [fuseRow, h2]]
      rw [mkMergeRow_setId]
      rw [show fuseRow (p + 1) j =
          mkMergeRow (if j = 101 then 1000 else 10) Label.recovery (102 - (p + 1)) from by
        unfold fuseRow
        rw [if_neg h3]]
      rw [show 102 - (p + 1) = 101 - p from by omega]

lemma fuse_step (p : ℕ) (hp : p ≤ 100) :
    mergeStep 50 (fuseState p) = some (fuseState (p + 1)) := by
  have hshorts := fuse_shorts_eq p (by omega)
  have hsum := fuse_summary_eq p (by omega)
  simp only [mergeStep]
  rw [hshorts, hsum]
  have hne : ¬((List.range (101 - p)).map fun j =>
      (⟨j + 1, 10, lab (j + p)⟩ : ISum)).isEmpty = true := by
    simp only [List.isEmpty_iff, List.map_eq_nil_iff, List.range_eq_nil]
    omega
  rw [if_neg hne]
  have hany : applyMergeAny (fuseSummary p)
      ((List.range (101 - p)).map fun j => (⟨j + 1, 10, lab (j + p)⟩ : ISum)) = true := by
    unfold applyMergeAny
    rw [List.any_eq_true]
    refine ⟨⟨0 + 1, 10, lab (0 + p)⟩, ?_, ?_⟩
    · exact List.mem_map.mpr ⟨0, List.mem_range.mpr (by omega), rfl⟩
    · rw [chooseTarget_fuse p 0 hp (by omega)]
      rfl
  rw [if_pos hany]
  refine congrArg some ?_
  have hnodup : ((((List.range (101 - p)).map fun j =>
      (⟨j + 1, 10, lab (j + p)⟩ : ISum))).map ISum.id).Nodup := by
    rw [List.map_map]
    exact (List.nodup_range _).map (add_left_injective 1)
  rw [applyMergeRows_eq_map (fuseSummary p) _ _ hnodup]
  rw [show fuseState p = (List.range 102).map (fuseRow p) from rfl, List.map_map]
  have hcomp : (List.range 102).map (passRelabel (fuseSummary p)
      ((List.range (101 - p)).map fun j2 => (⟨j2 + 1, 10, lab (j2 + p)⟩ : ISum)) ∘ fuseRow p) =
      (List.range 102).map (fuseRowMerged p) :=
    List.map_congr_left fun j _ => fuse_relabel p j hp
  rw [hcomp]
  exact fuse_reassign p hp

lemma fuse_chain : ∀ (m q : ℕ), q + m ≤ 101 →
    mergeLoop 50 m (fuseState q) = fuseState (q + m) := by
  intro m
  induction m with
  | zero => intro q _; rfl
  | succ n ih =>
    intro q h
    have hq : q ≤ 100 := by omega
    have e : mergeLoop 50 (n + 1) (fuseState q) = mergeLoop 50 n (fuseState (q + 1)) := by
      simp [mergeLoop, fuse_step q hq]
    rw [e, ih (q + 1) (by omega), show q + 1 + n = q + (n + 1) from by omega]

lemma exFuse_eq_fuseState : exFuse = fuseState 0 := by
  unfold exFuse fuseState
  apply List.map_congr_left
  intro j hj
  have hj102 : j < 102 := List.mem_range.mp hj
  by_cases h : j < 101 - 0
  · rw [show fuseRow 0 j = mkMergeRow 10 (lab (j + 0)) (j + 1) from by
      unfold fuseRow
      rw [if_pos h]]
    rw [show (if j = 101 then (1000 : ℚ) else 10) = 10 from if_neg (by omega)]
    rfl
  · have hj101 : j = 101 := by omega
    subst hj101
    rw [show fuseRow 0 101 =
        mkMergeRow (if 101 = 101 then 1000 else 10) Label.recovery (102 - 0) from by
      unfold fuseRow
      rw [if_neg h]]
    rfl

lemma merge_exFuse : merge_short_intervals 50 exFuse = fuseState 100 := by
  unfold merge_short_intervals
  rw [exFuse_eq_fuseState]
  simpa using fuse_chain 100 0 (by omega)

lemma mergeStep_fuse101 : mergeStep 50 (fuseState 101) = none := by decide!

set_option maxRecDepth 4000 in
lemma merge_fuse100_rerun : merge_short_intervals 50 (fuseState 100) = fuseState 101 := by
  unfold merge_short_intervals
  have h1 : mergeLoop 50 100 (fuseState 100) = mergeLoop 50 99 (fuseState 101) := by
    show (match mergeStep 50 (fuseState 100) with
      | none => fuseState 100
      | some r => mergeLoop 50 99 r) = mergeLoop 50 99 (fuseState 101)
    rw [fuse_step 100 (le_refl 100)]
  rw [h1]
  exact mergeLoop_of_stepNone mergeStep_fuse101 99

lemma fuseState_101_ne_100 : fuseState 101 ≠ fuseState 100 := by
  intro h
  have h0 : (fuseState 101).get? 0 = (fuseState 100).get? 0 := by rw [h]
  have e1 : (fuseState 101).get? 0 = some (fuseRow 101 0) := by
    simp [fuseState, List.get?_eq_getElem?, List.getElem?_map, List.getElem?_range]
  have e2 : (fuseState 100).get? 0 = some (fuseRow 100 0) := by
    simp [fuseState, List.get?_eq_getElem?, List.getElem?_map, List.getElem?_range]
  rw [e1, e2] at h0
  have h1 : fuseRow 101 0 = fuseRow 100 0 := Option.some.inj h0
  have h2 : (fuseRow 101 0).label = (fuseRow 100 0).label := congrArg ARow.label h1
  exact absurd h2 (by decide)

-- --- Claim theorems ---

/-- Claim C1 (refuted — the outlier filter is dead code).  The second
assignment to `segment_distance_km` (lines 177-184) reads `distance_km_raw`,
so the derived distance column always equals the raw haversine column,
whatever the outlier mask says; in particular the specification's synthetic
pair — two fixes 1 second and 1 km apart, instantaneous speed 3600 km/h —
is flagged as an outlier yet keeps the raw 1 km distance instead of the
claimed 0. -/
theorem claim_C1 :
    (∀ (hav : ℚ → ℚ → ℚ → ℚ → ℚ) (fixes : List FixRow),
      segDistCol hav fixes = rawDistCol hav fixes) ∧
    (outlierCol havConst1 exOutlierFixes).getD 1 false = true ∧
    (segDistCol havConst1 exOutlierFixes).getD 1 none = some 1 := by
  refine ⟨segDistCol_eq_rawDistCol, ?_, ?_⟩
  · decide!
  · decide!

/-- Claim C2 (refuted — the empty track raises).  `extract_gpx_data` builds
a dataframe from zero track points and indexes its `"time"` column, which
does not exist, so `run_analysis` on an empty fix sequence propagates a
`KeyError` instead of returning an empty summary. -/
theorem claim_C2 (hav : ℚ → ℚ → ℚ → ℚ → ℚ) (params : String → Option PyVal) :
    run_analysis hav params [] = Except.error "KeyError: time" := rfl

/-- Claim C3 (confirmed).  Each merge pass relabels exactly the intervals
whose pre-pass total time is below the minimum, pointwise by the snapshot
rule `passRelabel` — look the row's interval up among the pass's short
intervals and relabel it to its `chooseTarget` neighbour's snapshot type
(previous-if-same-type, else next-if-same-type, else previous, else next) —
and on the concrete track [Steady 60 s, Recovery 10 s, Steady 60 s] with a
50 s minimum, the 10 s Recovery is absorbed into the previous Steady run,
leaving a single Steady interval with id 1 covering all three spans. -/
theorem claim_C3 :
    (∀ (minT : ℚ) (rows : List ARow),
      applyMergeRows (summarizeGroups rows) (shortOnes minT rows) rows =
        rows.map (passRelabel (summarizeGroups rows) (shortOnes minT rows))) ∧
    merge_short_intervals 50 exSteadyRecSteady =
      [mkMergeRow 60 Label.steady 1, mkMergeRow 10 Label.steady 1,
        mkMergeRow 60 Label.steady 1] := by
  constructor
  · intro minT rows
    exact applyMergeRows_eq_map _ _ _ (nodup_shortOnes_map_id minT rows)
  · decide!

/-- Claim C4 (confirmed).  Every label-mutating refinement stage ends by
re-run-length-encoding the ids over the label column (`wfIds`), and under
that invariant the id of the fix at position `i` is exactly `1` plus the
number of adjacent label changes among the first `i + 1` labels: ids are
contiguous integers starting at 1 in timeline order and partition the track
with no gaps or overlaps. -/
theorem claim_C4 :
    (∀ (lmaW : ℕ) (thr : ℚ) (rows : List ARow),
      wfIds (identify_intervals lmaW thr rows)) ∧
    (∀ rows : List ARow, wfIds (convert_slow_intervals_to_recovery rows)) ∧
    (∀ (thr : ℚ) (rows : List ARow),
      wfIds (convert_low_pace_steady_to_recovery thr rows)) ∧
    (∀ (minT : ℚ) (rows : List ARow), wfIds rows →
      wfIds (merge_short_intervals minT rows)) ∧
    (∀ (minT : ℚ) (rows : List ARow), wfIds (mark_real_intervals minT rows)) ∧
    (∀ (rows : List ARow) (i : ℕ), wfIds rows → i < rows.length →
      (rows.map ARow.id).get? i =
        some (1 + nadj ((rows.map ARow.label).take (i + 1)))) := by
  refine ⟨wfIds_identify, wfIds_convert_slow, wfIds_convert_low,
    wfIds_merge, wfIds_mark_real, ?_⟩
  intro rows i hwf hi
  rw [hwf]
  exact rleIds_get? _ i (by simpa using hi)

/-- Claim C5 (corrected).  The merge loop runs at most 100 passes by
construction, but idempotence only holds for tracks on which it converges
*within* the cap: whenever some pass count `k ≤ 100` reaches a state the
next pass leaves alone (`mergeStep` returns `none` — no short interval
remains or none finds a target), rerunning `merge_short_intervals` on its
own output changes nothing.  (`claim_C5_cex` refutes the unconditional
claim: a 102-interval fuse track needs 101 passes, so the capped loop stops
one pass short and a rerun changes the labels.) -/
theorem claim_C5 (minT : ℚ) (rows : List ARow) (k : ℕ) (hk : k ≤ 100)
    (hconv : mergeStep minT (mergeLoop minT k rows) = none) :
    merge_short_intervals minT (merge_short_intervals minT rows) =
      merge_short_intervals minT rows := by
  unfold merge_short_intervals
  rw [mergeLoop_stabilize minT k 100 rows hk hconv]
  exact mergeLoop_of_stepNone hconv 100

/-- Witness for C5: the single 60 s Steady interval is already converged at
`k = 0`, and the rerun is indeed a no-op. -/
theorem claim_C5_witness :
    (0 ≤ 100 ∧ mergeStep 50 (mergeLoop 50 0 exSingleSteady) = none) ∧
    merge_short_intervals 50 (merge_short_intervals 50 exSingleSteady) =
      merge_short_intervals 50 exSingleSteady :=
  ⟨⟨by decide, by decide!⟩, claim_C5 50 exSingleSteady 0 (by decide) (by decide!)⟩

/-- Counterexample to the literal C5: on the fuse track of 101 alternating
10 s intervals followed by a 1000 s interval, the loop exhausts its
100-iteration cap one merge short of convergence, so a second run of
`merge_short_intervals` changes the labelling. -/
theorem claim_C5_cex :
    merge_short_intervals 50 (merge_short_intervals 50 exFuse) ≠
      merge_short_intervals 50 exFuse := by
  rw [merge_exFuse, merge_fuse100_rerun]
  exact fuseState_101_ne_100

/-- Claim C6 (confirmed).  When a fix's latitude or longitude is missing,
the derived distance of the segment ending at that fix and of the segment
starting at it is `NaN` (modelled `none`) — never zero — regardless of the
distance function and hence of anything the outlier mask computed; `NaN`
entries are skipped by the rolling sums and contribute nothing to the
interval (`groupby`) sums. -/
theorem claim_C6 :
    (∀ (hav : ℚ → ℚ → ℚ → ℚ → ℚ) (fixes : List FixRow) (i : ℕ)
        (hi : i < fixes.length),
      ((fixes.get ⟨i, hi⟩).lat = none ∨ (fixes.get ⟨i, hi⟩).lon = none) →
      (segDistCol hav fixes).getD i none = none) ∧
    (∀ (hav : ℚ → ℚ → ℚ → ℚ → ℚ) (fixes : List FixRow) (i : ℕ)
        (hi : i < fixes.length), i + 1 < fixes.length →
      ((fixes.get ⟨i, hi⟩).lat = none ∨ (fixes.get ⟨i, hi⟩).lon = none) →
      (segDistCol hav fixes).getD (i + 1) none = none) ∧
    (∀ l : List OQ, nansum ((none : OQ) :: l) = nansum l) ∧
    (∀ l : List OQ, gsum ((none : OQ) :: l) = gsum l) := by
  refine ⟨fun hav fixes i hi h => segDistCol_getD_cur hav fixes i hi h,
    fun hav fixes i hi hnext h => segDistCol_getD_next hav fixes i hi hnext h,
    fun l => ?_, fun l => ?_⟩
  · unfold nansum
    rfl
  · unfold gsum
    rfl

/-- Claim C7 (confirmed).  On a non-empty track in which every fix's
position is missing, `run_analysis` succeeds (never raises), every derived
segment distance and every pace column — short-window, long-moving-average
and the centered display average — is undefined, and after refinement every
row is labeled Recovery (one single interval, id 1). -/
theorem claim_C7 (hav : ℚ → ℚ → ℚ → ℚ → ℚ) (params : String → Option PyVal)
    (raws : List RawFix) (hne : raws ≠ [])
    (h : ∀ r ∈ raws, r.lat = none ∨ r.lon = none) :
    (run_analysis hav params raws).isOk = true ∧
    (analysisRows hav (analysisConfig params).smoothWin.asNat
        (analysisConfig params).lmaWin.asNat
        (analysisConfig params).paceDifferenceThreshold.asQ
        (analysisConfig params).minIntervalPacePerKm.asQ
        (analysisConfig params).minTimeSec.asQ (extractRows raws)).map
      ARow.segDist = List.replicate raws.length none ∧
    (analysisRows hav (analysisConfig params).smoothWin.asNat
        (analysisConfig params).lmaWin.asNat
        (analysisConfig params).paceDifferenceThreshold.asQ
        (analysisConfig params).minIntervalPacePerKm.asQ
        (analysisConfig params).minTimeSec.asQ (extractRows raws)).map
      ARow.pace = List.replicate raws.length none ∧
    (analysisRows hav (analysisConfig params).smoothWin.asNat
        (analysisConfig params).lmaWin.asNat
        (analysisConfig params).paceDifferenceThreshold.asQ
        (analysisConfig params).minIntervalPacePerKm.asQ
        (analysisConfig params).minTimeSec.asQ (extractRows raws)).map
      ARow.paceLma = List.replicate raws.length none ∧
    (analysisRows hav (analysisConfig params).smoothWin.asNat
        (analysisConfig params).lmaWin.asNat
        (analysisConfig params).paceDifferenceThreshold.asQ
        (analysisConfig params).minIntervalPacePerKm.asQ
        (analysisConfig params).minTimeSec.asQ (extractRows raws)).map
      ARow.paceLmaDisp = List.replicate raws.length none ∧
    (analysisRows hav (analysisConfig params).smoothWin.asNat
        (analysisConfig params).lmaWin.asNat
        (analysisConfig params).paceDifferenceThreshold.asQ
        (analysisConfig params).minIntervalPacePerKm.asQ
        (analysisConfig params).minTimeSec.asQ (extractRows raws)).map
      ARow.label = List.replicate raws.length Label.recovery := by
  have hfne : extractRows raws ≠ [] := by
    intro hc
    have hlen := extractRows_length raws
    rw [hc] at hlen
    exact hne (List.length_eq_zero.mp hlen.symm)
  have hrows := analysisRows_all_missing hav
    (analysisConfig params).smoothWin.asNat (analysisConfig params).lmaWin.asNat
    (analysisConfig params).paceDifferenceThreshold.asQ
    (analysisConfig params).minIntervalPacePerKm.asQ
    (analysisConfig params).minTimeSec.asQ
    (extractRows raws) hfne (extractRows_missing raws h)
  rw [extractRows_length raws] at hrows
  exact ⟨run_analysis_all_missing_ok hav params raws hne h,
    hrows.2.1, hrows.2.2.1, hrows.2.2.2.1, hrows.2.2.2.2.1, hrows.2.2.2.2.2.1⟩

/-- Witness for C7: a two-fix track with both latitudes missing satisfies
the hypotheses, and the pipeline indeed succeeds on it. -/
theorem claim_C7_witness :
    (exAllMissingRaws ≠ [] ∧
      (∀ r ∈ exAllMissingRaws, r.lat = none ∨ r.lon = none)) ∧
    (run_analysis havConst1 exParams exAllMissingRaws).isOk = true :=
  ⟨⟨by decide, by decide⟩,
    (claim_C7 havConst1 exParams exAllMissingRaws (by decide) (by decide)).1⟩

/-- Claim C8 (confirmed).  `format_pace_min_sec` yields `"N/A"` whenever the
distance is undefined or at most the 0.02 km floor or the time is undefined,
and every output is either `"N/A"` or a zero-padded `MM:SS` with a seconds
field below 60 (a computed 60 rolls into the next minute); concretely,
300 s over 1 km formats as `"05:00"`, 30 s over 0.01 km falls below the
floor and gives `"N/A"`, and 359.8 s over 1 km rounds its seconds to 60 and
rolls over to `"06:00"`. -/
theorem claim_C8 :
    (∀ t : OQ, format_pace_min_sec t none = "N/A") ∧
    (∀ (t : OQ) (d : ℚ), d ≤ MIN_DISTANCE_FOR_PACE_KM →
      format_pace_min_sec t (some d) = "N/A") ∧
    (∀ d : OQ, format_pace_min_sec none d = "N/A") ∧
    (∀ (t d : ℚ), (t / 60) / d ≤ 0 ∨ 100 < (t / 60) / d →
      format_pace_min_sec (some t) (some d) = "N/A") ∧
    (∀ t d : OQ, format_pace_min_sec t d = "N/A" ∨
      ∃ m s : ℕ, s < 60 ∧ format_pace_min_sec t d = pad2 m ++ ":" ++ pad2 s) ∧
    format_pace_min_sec (some 300) (some 1) = "05:00" ∧
    format_pace_min_sec (some 30) (some (1 / 100)) = "N/A" ∧
    format_pace_min_sec (some (1799 / 5)) (some 1) = "06:00" := by
  refine ⟨fun t => rfl, ?_, ?_, ?_, ?_, by decide!, by decide!, by decide!⟩
  · intro t d hd
    simp [format_pace_min_sec, hd]
  · intro d
    cases d with
    | none => rfl
    | some q => simp [format_pace_min_sec]
  · intro t d hp
    by_cases hd : d ≤ MIN_DISTANCE_FOR_PACE_KM
    · simp [format_pace_min_sec, hd]
    · rcases hp with hp | hp
      · simp [format_pace_min_sec, hd, hp]
      · have h0 : ¬((t / 60) / d ≤ 0) := by linarith
        simp [format_pace_min_sec, hd, h0, hp]
  · intro t d
    cases d with
    | none => exact Or.inl rfl
    | some q =>
      by_cases hq : q ≤ MIN_DISTANCE_FOR_PACE_KM
      · exact Or.inl (by simp [format_pace_min_sec, hq])
      · cases t with
        | none => exact Or.inl (by simp [format_pace_min_sec, hq])
        | some tt =>
          by_cases h1 : (tt / 60) / q ≤ 0
          · exact Or.inl (by simp [format_pace_min_sec, hq, h1])
          · by_cases h2 : 100 < (tt / 60) / q
            · exact Or.inl (by simp [format_pace_min_sec, hq, h1, h2])
            · by_cases h3 : (60 : ℤ) ≤ pyRound (((tt / 60) / q -
                  ((⌊(tt / 60) / q⌋.toNat : ℕ) : ℚ)) * 60)
              · refine Or.inr ⟨⌊(tt / 60) / q⌋.toNat + 1, 0, by omega, ?_⟩
                simp [format_pace_min_sec, hq, h1, h2, h3]
              · refine Or.inr ⟨⌊(tt / 60) / q⌋.toNat,
                  (pyRound (((tt / 60) / q -
                    ((⌊(tt / 60) / q⌋.toNat : ℕ) : ℚ)) * 60)).toNat,
                  by omega, ?_⟩
                simp [format_pace_min_sec, hq, h1, h2, h3]

/-- Claim C9 (confirmed).  `read_param` returns the default when the key is
absent *or* when the provided value is falsy (Python truthiness: `0`, `""`),
and returns any truthy provided value exactly; concretely, a params dict
with `smoothWin = 0` and `lmaWin = 7` resolves to the default 5 for
`smoothWin`, the provided 7 for `lmaWin`, and the defaults 50, 5.5 and 1
for the three unset keys. -/
theorem claim_C9 :
    (∀ (params : String → Option PyVal) (key : String) (dflt : PyVal),
      params key = none → read_param params key dflt = dflt) ∧
    (∀ (params : String → Option PyVal) (key : String) (dflt v : PyVal),
      params key = some v → pyTruthy v = false →
      read_param params key dflt = dflt) ∧
    (∀ (params : String → Option PyVal) (key : String) (dflt v : PyVal),
      params key = some v → pyTruthy v = true →
      read_param params key dflt = v) ∧
    analysisConfig exParams =
      ⟨PyVal.num 5, PyVal.num 7, PyVal.num 50, PyVal.num 5.5, PyVal.num 1⟩ := by
  refine ⟨?_, ?_, ?_, by decide!⟩
  · intro params key dflt h
    simp [read_param, h]
  · intro params key dflt v h ht
    simp [read_param, h, ht]
  · intro params key dflt v h ht
    simp [read_param, h, ht]

/-- Claim C10 (confirmed).  With the external collaborators abstract —
`json.dumps`/`loads` a section, url-safe base64 a dot-free encoding with its
decoder, HMAC-SHA256 a keyed function — `verify_state` recovers exactly the
payload `sign_state` signed whenever it runs within `STATE_EXPIRY_SECONDS`
of the payload's `iat`, and returns `none` for every state string whose
decoded signature component differs from the HMAC of its decoded data
component; a concrete instantiation exercises the round trip. -/
theorem claim_C10 :
    (∀ (α : Type) (dumps : α → String) (b64e : String → String)
        (b64d : String → Option String) (loads : String → Option α)
        (hmacSha256 : String → String → String) (secret : String)
        (getIat : α → ℚ) (now : ℚ) (p : α),
      (∀ s, b64d (b64e s) = some s) →
      loads (dumps p) = some p →
      '.' ∉ (b64e (dumps p)).data →
      '.' ∉ (b64e (hmacSha256 secret (dumps p))).data →
      now - getIat p ≤ STATE_EXPIRY_SECONDS →
      verify_state loads b64d hmacSha256 secret getIat now
        (sign_state dumps b64e hmacSha256 secret p) = some p) ∧
    (∀ (α : Type) (loads : String → Option α) (b64d : String → Option String)
        (hmacSha256 : String → String → String) (secret : String)
        (getIat : α → ℚ) (now : ℚ) (state : String) (db sb : List Char)
        (data sig : String),
      splitDot state.data = [db, sb] →
      b64d (String.mk db) = some data →
      b64d (String.mk sb) = some sig →
      sig ≠ hmacSha256 secret data →
      verify_state loads b64d hmacSha256 secret getIat now state = none) ∧
    verify_state (fun _ => some (7 : ℕ)) (fun s => some s) (fun _ _ => "h")
      "k" (fun _ => 0) 0
      (sign_state (fun _ => "d") (fun s => s) (fun _ _ => "h") "k" 7) =
      some 7 := by
  refine ⟨?_, ?_, by decide!⟩
  · intro α dumps b64e b64d loads hmacSha256 secret getIat now p
    intro hinv hloads hd1 hd2 hiat
    unfold sign_state verify_state
    have hdata : (b64e (dumps p) ++ "." ++ b64e (hmacSha256 secret (dumps p))).data =
        (b64e (dumps p)).data ++ '.' :: (b64e (hmacSha256 secret (dumps p))).data := by
      simp [String.data_append]
    rw [hdata, splitDot_append _ _ hd1 hd2]
    simp [string_mk_data, hinv, hloads, not_lt.mpr hiat]
  · intro α loads b64d hmacSha256 secret getIat now state db sb data sig
    intro hsplit hdb hsb hne
    unfold verify_state
    rw [hsplit]
    simp [hdb, hsb, hne]
